import Mathlib

/-!
Verification of the RESP3 decoder of the redis-protocol library
(`src/resp3/decode.rs`), against its natural-language specification.

Modelling conventions:
* Wire bytes are `List Nat` (each entry a byte value `< 256` on the wire;
  the parsers never do arithmetic that depends on the bound).
* The nom streaming combinators are embedded as total functions returning
  `PResult`: `ok rest val` (success, `rest` is the unconsumed suffix),
  `incomplete` (nom's `Err::Incomplete`, i.e. more input is needed), or
  `error ctx` (a parse failure carrying the short context identifier the
  source attaches via `RedisParseError::new_custom`).
* Rust `&str` values are modelled by their UTF-8 bytes; `str::from_utf8`
  becomes a UTF-8 validity check that keeps the bytes.
* Rust `f64` values are abstracted by `FloatVal`: the special values
  `nan`/`inf`/`-inf` are explicit, and a finite parsed double is
  represented by the token it was parsed from (no claim compares two
  distinct finite doubles, so the rounding step is irrelevant here).
* `usize` subtraction, which can wrap in the source (`len - 4` in
  `d_parse_verbatimstring`), is modelled by `usizeSub` with explicit
  wrap-around modulo `2 ^ 64` (release-build semantics; a debug build
  panics at the same spot).
* The types module (`resp3/types.rs`), the utils module and the container
  semantics of the `index-map` configuration are not part of the given
  sources; those definitions are modelled from the spec and are marked
  `Modelled from the spec:` in their doc comments.
* The recursive knot of the decoder (`d_parse_frame_or_attribute`) is tied
  with a fuel parameter, structurally decreasing at each recursion step;
  every recursion level consumes at least one byte (the frame-kind byte),
  so the fuel `buf.length + 1` supplied by `decode` is never exhausted.
  Exhausted fuel returns `incomplete`, so a theorem concluding in an `ok`
  or `error` result can never rest on the fuel bound, and the
  monotonicity lemmas below let theorems about `incomplete` results move
  between fuel amounts soundly.
-/

namespace RedisProtocol

abbrev Bytes := List Nat

/-- CRLF terminator bytes, from the shared constants module. -/
def CRLF : Bytes := [13, 10]

/-- Modelled from the spec: the HELLO handshake token (`"HELLO"`). -/
def HELLO : Bytes := [72, 69, 76, 76, 79]

/-- Modelled from the spec: the AUTH token (`"AUTH"`). -/
def AUTH : Bytes := [65, 85, 84, 72]

/-- Modelled from the spec: the single-space separator token (`" "`). -/
def EMPTY_SPACE : Bytes := [32]

/-- Modelled from the spec: the RESP3 frame-kind discriminants (section 3.1). -/
inductive FrameKind where
  | SimpleString
  | SimpleError
  | Number
  | Double
  | Boolean
  | Null
  | BlobString
  | BlobError
  | VerbatimString
  | BigNumber
  | Array
  | Map
  | Set
  | Push
  | Hello
  | ChunkedString
  | EndStream
  | Attribute
deriving DecidableEq, Repr

/-- Modelled from the spec: the `FrameKind` tag byte table (sections 3.1 and
6.2); the Hello handshake token starts with the byte `H`. -/
def FrameKind.from_byte (b : Nat) : Option FrameKind :=
  if b = 43 then some .SimpleString      -- '+'
  else if b = 45 then some .SimpleError  -- '-'
  else if b = 58 then some .Number       -- ':'
  else if b = 44 then some .Double       -- ','
  else if b = 35 then some .Boolean      -- '#'
  else if b = 95 then some .Null         -- '_'
  else if b = 36 then some .BlobString   -- '$'
  else if b = 33 then some .BlobError    -- '!'
  else if b = 61 then some .VerbatimString -- '='
  else if b = 40 then some .BigNumber    -- '('
  else if b = 42 then some .Array        -- '*'
  else if b = 37 then some .Map          -- '%'
  else if b = 126 then some .Set         -- '~'
  else if b = 62 then some .Push         -- '>'
  else if b = 124 then some .Attribute   -- '|'
  else if b = 59 then some .ChunkedString -- ';'
  else if b = 46 then some .EndStream    -- '.'
  else if b = 72 then some .Hello        -- 'H'
  else none

/-- Modelled from the spec: the verbatim-string format tag (`txt` or `mkd`). -/
inductive VerbatimStringFormat where
  | Text
  | Markdown
deriving DecidableEq, Repr

/-- Modelled from the spec: the RESP protocol version tag. -/
inductive RespVersion where
  | RESP2
  | RESP3
deriving DecidableEq, Repr

/-- Modelled from the spec: auth credentials of a HELLO frame (username and
password modelled as their UTF-8 bytes). -/
structure Auth where
  username : Bytes
  password : Bytes
deriving DecidableEq, Repr

/-- Abstraction of a decoded Rust `f64`: special values are explicit and a
finite double is represented by the token it was parsed from. -/
inductive FloatVal where
  | nan
  | inf
  | negInf
  | finite (token : Bytes)
deriving DecidableEq, Repr

/-- Modelled from the spec: the RESP3 frame data model (section 3.1). The
insertion-ordered containers of the `index-map` configuration (section 6.4)
are modelled as ordered lists: a Map is a list of key-value pairs and a Set
a list of elements, both kept duplicate-free by the insert operations
below. -/
inductive Frame where
  | SimpleString (data : Bytes) (attributes : Option (List (Frame × Frame)))
  | SimpleError (data : Bytes) (attributes : Option (List (Frame × Frame)))
  | Number (data : Int) (attributes : Option (List (Frame × Frame)))
  | Double (data : FloatVal) (attributes : Option (List (Frame × Frame)))
  | Boolean (data : Bool) (attributes : Option (List (Frame × Frame)))
  | Null
  | BlobString (data : Bytes) (attributes : Option (List (Frame × Frame)))
  | BlobError (data : Bytes) (attributes : Option (List (Frame × Frame)))
  | VerbatimString (data : Bytes) (format : VerbatimStringFormat)
      (attributes : Option (List (Frame × Frame)))
  | BigNumber (data : Bytes) (attributes : Option (List (Frame × Frame)))
  | Array (data : List Frame) (attributes : Option (List (Frame × Frame)))
  | Map (data : List (Frame × Frame)) (attributes : Option (List (Frame × Frame)))
  | Set (data : List Frame) (attributes : Option (List (Frame × Frame)))
  | Push (data : List Frame) (attributes : Option (List (Frame × Frame)))
  | Hello (version : RespVersion) (auth : Option Auth)
  | ChunkedString (data : Bytes)
  | EndStream

abbrev FrameMap := List (Frame × Frame)

abbrev FrameSet := List Frame

abbrev Attributes := FrameMap

mutual

/-- Structural equality of frames, standing for the source's `PartialEq`
on `Frame` (used by the map and set containers to detect duplicate keys).
Finite doubles compare by their token under the `FloatVal` abstraction. -/
def frameBeq : Frame → Frame → Bool
  | .SimpleString d a, .SimpleString d2 a2 => d == d2 && attrsBeq a a2
  | .SimpleError d a, .SimpleError d2 a2 => d == d2 && attrsBeq a a2
  | .Number d a, .Number d2 a2 => d == d2 && attrsBeq a a2
  | .Double d a, .Double d2 a2 => d == d2 && attrsBeq a a2
  | .Boolean d a, .Boolean d2 a2 => d == d2 && attrsBeq a a2
  | .Null, .Null => true
  | .BlobString d a, .BlobString d2 a2 => d == d2 && attrsBeq a a2
  | .BlobError d a, .BlobError d2 a2 => d == d2 && attrsBeq a a2
  | .VerbatimString d f a, .VerbatimString d2 f2 a2 =>
      d == d2 && f == f2 && attrsBeq a a2
  | .BigNumber d a, .BigNumber d2 a2 => d == d2 && attrsBeq a a2
  | .Array d a, .Array d2 a2 => framesBeq d d2 && attrsBeq a a2
  | .Map d a, .Map d2 a2 => pairsBeq d d2 && attrsBeq a a2
  | .Set d a, .Set d2 a2 => framesBeq d d2 && attrsBeq a a2
  | .Push d a, .Push d2 a2 => framesBeq d d2 && attrsBeq a a2
  | .Hello v au, .Hello v2 au2 => v == v2 && au == au2
  | .ChunkedString d, .ChunkedString d2 => d == d2
  | .EndStream, .EndStream => true
  | _, _ => false
termination_by structural f => f

def framesBeq : List Frame → List Frame → Bool
  | [], [] => true
  | x :: xs, y :: ys => frameBeq x y && framesBeq xs ys
  | _, _ => false
termination_by structural l => l

def pairsBeq : List (Frame × Frame) → List (Frame × Frame) → Bool
  | [], [] => true
  | (k, v) :: xs, (k2, v2) :: ys => frameBeq k k2 && frameBeq v v2 && pairsBeq xs ys
  | _, _ => false
termination_by structural l => l

def attrsBeq : Option (List (Frame × Frame)) → Option (List (Frame × Frame)) → Bool
  | none, none => true
  | some m, some m2 => pairsBeq m m2
  | _, _ => false
termination_by structural o => o

end

/-- Modelled from the spec: insertion into the insertion-ordered map container
(`index-map` configuration, section 6.4): inserting an existing key replaces
its value in place, a new key is appended at the end. -/
def mapInsert : FrameMap → Frame → Frame → FrameMap
  | [], k, v => [(k, v)]
  | (k2, v2) :: rest, k, v =>
      if frameBeq k2 k then (k2, v) :: rest else (k2, v2) :: mapInsert rest k v

/-- Modelled from the spec: insertion into the insertion-ordered set container:
inserting an existing element leaves the set unchanged, a new element is
appended at the end. -/
def setInsert (s : FrameSet) (f : Frame) : FrameSet :=
  if s.any (fun x => frameBeq x f) then s else s ++ [f]

/-- Modelled from the spec: extending an attribute map with another map's
pairs, inserting them in order (used when attributes are attached to a frame
that already carries some). -/
def mapExtend (m : FrameMap) (extra : FrameMap) : FrameMap :=
  extra.foldl (fun acc kv => mapInsert acc kv.1 kv.2) m

/-- Modelled from the spec: `StreamedFrame` (section 4.4) — the state of a
streamed aggregate: its kind, the buffered child frames, the finished flag,
and the attributes carried by the streaming envelope. -/
structure StreamedFrame where
  kind : FrameKind
  buffer : List Frame
  finished : Bool
  attributes : Option Attributes

/-- Modelled from the spec: `StreamedFrame::new` — an empty, unfinished
stream buffer of the given kind. -/
def StreamedFrame.new (kind : FrameKind) : StreamedFrame :=
  { kind := kind, buffer := [], finished := false, attributes := none }

/-- Modelled from the spec: the streaming-aware decoder result (section 3.2):
either a self-contained frame or the header of a streamed aggregate. -/
inductive DecodedFrame where
  | Complete (frame : Frame)
  | Streaming (stream : StreamedFrame)

/-- Modelled from the spec: `Frame::new_end_stream` — the end-of-stream
sentinel frame. -/
def Frame.new_end_stream : Frame := Frame.EndStream

/-- Modelled from the spec: attaching an attribute map to a frame. Frames
that cannot carry attributes (Null, ChunkedString, EndStream, Hello —
section 3.1) reject the attempt; on the others the map extends the
`attributes` slot. -/
def Frame.add_attributes : Frame → Attributes → Option Frame
  | .SimpleString d a, attrs => some (.SimpleString d (some (mapExtend (a.getD []) attrs)))
  | .SimpleError d a, attrs => some (.SimpleError d (some (mapExtend (a.getD []) attrs)))
  | .Number d a, attrs => some (.Number d (some (mapExtend (a.getD []) attrs)))
  | .Double d a, attrs => some (.Double d (some (mapExtend (a.getD []) attrs)))
  | .Boolean d a, attrs => some (.Boolean d (some (mapExtend (a.getD []) attrs)))
  | .Null, _ => none
  | .BlobString d a, attrs => some (.BlobString d (some (mapExtend (a.getD []) attrs)))
  | .BlobError d a, attrs => some (.BlobError d (some (mapExtend (a.getD []) attrs)))
  | .VerbatimString d f a, attrs =>
      some (.VerbatimString d f (some (mapExtend (a.getD []) attrs)))
  | .BigNumber d a, attrs => some (.BigNumber d (some (mapExtend (a.getD []) attrs)))
  | .Array d a, attrs => some (.Array d (some (mapExtend (a.getD []) attrs)))
  | .Map d a, attrs => some (.Map d (some (mapExtend (a.getD []) attrs)))
  | .Set d a, attrs => some (.Set d (some (mapExtend (a.getD []) attrs)))
  | .Push d a, attrs => some (.Push d (some (mapExtend (a.getD []) attrs)))
  | .Hello _ _, _ => none
  | .ChunkedString _, _ => none
  | .EndStream, _ => none

/-- Modelled from the spec: attaching attributes to a decoder result; on a
streaming header the attributes bind to the envelope (section 9). -/
def DecodedFrame.add_attributes : DecodedFrame → Attributes → Option DecodedFrame
  | .Complete f, attrs => (f.add_attributes attrs).map .Complete
  | .Streaming s, attrs =>
      some (.Streaming { s with
        attributes := some (mapExtend (s.attributes.getD []) attrs) })

/-- Modelled from the spec: `DecodedFrame::into_complete_frame` — a complete
frame unwraps, a streaming header is an error (section 6.3: `complete`
errors if a streaming header is encountered). -/
def DecodedFrame.into_complete_frame : DecodedFrame → Option Frame
  | .Complete f => some f
  | .Streaming _ => none

/-- Result of a nom streaming parser over a byte slice. -/
inductive PResult (α : Type) where
  | ok (rest : Bytes) (val : α)
  | incomplete
  | error (ctx : String)
deriving Repr

/-- Sequencing of parser steps, mirroring nom's `?` propagation: an error or
an incomplete result short-circuits. -/
def PResult.bind {α β : Type} : PResult α → (Bytes → α → PResult β) → PResult β
  | .ok rest v, g => g rest v
  | .incomplete, _ => .incomplete
  | .error e, _ => .error e

/-- True exactly on an `ok` result. -/
def PResult.isOk {α : Type} : PResult α → Bool
  | .ok _ _ => true
  | _ => false

/-- nom's streaming `take(n)`: returns the first `n` bytes, or `Incomplete`
when fewer are available. -/
def nomTake (n : Nat) (input : Bytes) : PResult Bytes :=
  if n ≤ input.length then .ok (input.drop n) (input.take n) else .incomplete

/-- nom's `be_u8`: one byte, or `Incomplete` on empty input. -/
def be_u8 : Bytes → PResult Nat
  | [] => .incomplete
  | b :: rest => .ok rest b

/-- Whether `tag` is an initial segment of `l`. -/
def listStartsWith : Bytes → Bytes → Bool
  | [], _ => true
  | _ :: _, [] => false
  | t :: ts, b :: bs => t == b && listStartsWith ts bs

/-- Index of the first occurrence of `tag` as a contiguous subsequence. -/
def findSub (tag : Bytes) : Bytes → Option Nat
  | [] => if listStartsWith tag [] then some 0 else none
  | b :: rest =>
      if listStartsWith tag (b :: rest) then some 0
      else (findSub tag rest).map (fun i => i + 1)

/-- nom's streaming `take_until(tag)`: the bytes before the first occurrence
of `tag` (the tag itself is left in the input), or `Incomplete` when the tag
does not occur. -/
def nomTakeUntil (tag : Bytes) (input : Bytes) : PResult Bytes :=
  match findSub tag input with
  | some i => .ok (input.drop i) (input.take i)
  | none => .incomplete

/-- nom's `opt`: converts an error into `none` without consuming input;
`Incomplete` still propagates (nom streaming semantics). -/
def nomOpt {α : Type} (p : Bytes → PResult α) (input : Bytes) : PResult (Option α) :=
  match p input with
  | .ok rest v => .ok rest (some v)
  | .incomplete => .incomplete
  | .error _ => .ok input none

/-- nom's `count(p, n)`: runs `p` exactly `n` times, collecting the values. -/
def nomCount {α : Type} (p : Bytes → PResult α) : Nat → Bytes → PResult (List α)
  | 0, input => .ok input []
  | n + 1, input =>
      (p input).bind fun rest v =>
        (nomCount p n rest).bind fun rest2 vs => .ok rest2 (v :: vs)

/-- nom's `map_res(p, f)`: applies the fallible conversion `f` to the parsed
value; a conversion failure is a parse error tagged `ctx`. -/
def mapRes {α β : Type} (r : PResult α) (ctx : String) (f : α → Option β) : PResult β :=
  r.bind fun rest v =>
    match f v with
    | some x => .ok rest x
    | none => .error ctx

/-- Continuation byte test of UTF-8 (`0x80..0xBF`). -/
def utf8Cont (b : Nat) : Bool := 128 ≤ b && b ≤ 191

mutual

/-- UTF-8 validity of a byte list, standing for Rust's `str::from_utf8`
(including the surrogate and overlong-encoding restrictions; the
lead-byte ranges pick the required continuation shape). -/
def isValidUtf8 : Bytes → Bool
  | [] => true
  | b :: rest =>
      if b ≤ 127 then isValidUtf8 rest
      else if 194 ≤ b && b ≤ 223 then utf8Tail1 rest
      else if b = 224 then utf8Tail2 160 191 rest
      else if (225 ≤ b && b ≤ 236) || b = 238 || b = 239 then utf8Tail2 128 191 rest
      else if b = 237 then utf8Tail2 128 159 rest
      else if b = 240 then utf8Tail3 144 191 rest
      else if 241 ≤ b && b ≤ 243 then utf8Tail3 128 191 rest
      else if b = 244 then utf8Tail3 128 143 rest
      else false
termination_by structural l => l

/-- One continuation byte, then a valid tail. -/
def utf8Tail1 : Bytes → Bool
  | c1 :: r => utf8Cont c1 && isValidUtf8 r
  | _ => false
termination_by structural l => l

/-- A first continuation byte within `[lo, hi]`, one more continuation
byte, then a valid tail. -/
def utf8Tail2 (lo hi : Nat) : Bytes → Bool
  | c1 :: c2 :: r => (lo ≤ c1 && c1 ≤ hi) && utf8Cont c2 && isValidUtf8 r
  | _ => false
termination_by structural l => l

/-- A first continuation byte within `[lo, hi]`, two more continuation
bytes, then a valid tail. -/
def utf8Tail3 (lo hi : Nat) : Bytes → Bool
  | c1 :: c2 :: c3 :: r =>
      (lo ≤ c1 && c1 ≤ hi) && utf8Cont c2 && utf8Cont c3 && isValidUtf8 r
  | _ => false
termination_by structural l => l

end

/-- Largest `usize` value on the 64-bit targets the crate builds for. -/
def USIZE_MAX : Nat := 2 ^ 64 - 1

/-- Wrapping `usize` subtraction (release-build semantics of `a - b`). -/
def usizeSub (a b : Nat) : Nat := (a + (2 ^ 64 - b % 2 ^ 64)) % 2 ^ 64

/-- Decimal digit test. -/
def isDigit (b : Nat) : Bool := 48 ≤ b && b ≤ 57

/-- Accumulating decimal parse of a digit-only byte list. -/
def parseDigitsLoop : Bytes → Nat → Option Nat
  | [], acc => some acc
  | b :: rest, acc =>
      if isDigit b then parseDigitsLoop rest (acc * 10 + (b - 48)) else none

/-- Decimal value of a nonempty all-digit byte list. -/
def parseDigits (s : Bytes) : Option Nat :=
  match s with
  | [] => none
  | _ => parseDigitsLoop s 0

/-- Rust's `usize::from_str`: optional leading `+`, then digits; overflow
fails. -/
def rustParseUsize (s : Bytes) : Option Nat :=
  let digits := if s.head? = some 43 then s.tail else s
  (parseDigits digits).bind fun n => if n ≤ USIZE_MAX then some n else none

/-- Rust's signed integer `from_str` with the given range bounds: optional
sign, then digits; out-of-range fails. -/
def rustParseIntBounded (lo hi : Int) (s : Bytes) : Option Int :=
  if s.head? = some 43 then
    (parseDigits s.tail).bind fun n =>
      if (n : Int) ≤ hi then some (n : Int) else none
  else if s.head? = some 45 then
    (parseDigits s.tail).bind fun n =>
      if lo ≤ -(n : Int) then some (-(n : Int)) else none
  else
    (parseDigits s).bind fun n =>
      if (n : Int) ≤ hi then some (n : Int) else none

/-- `to_usize` of the source: `&str` to `usize`. -/
def to_usize (s : Bytes) : Option Nat := rustParseUsize s

/-- `to_isize` of the source: the literal `?` maps to `-1`, anything else is
parsed as an `isize`. -/
def to_isize (s : Bytes) : Option Int :=
  if s = [63] then some (-1)
  else rustParseIntBounded (-(2 ^ 63)) (2 ^ 63 - 1) s

/-- `isize_to_usize` of the source: negative lengths are invalid. -/
def isize_to_usize (n : Int) : Option Nat :=
  if n < 0 then none else some n.toNat

/-- `to_i64` of the source. -/
def to_i64 (s : Bytes) : Option Int :=
  rustParseIntBounded (-(2 ^ 63)) (2 ^ 63 - 1) s

/-- ASCII lower-casing of one byte. -/
def asciiLower (b : Nat) : Nat := if 65 ≤ b && b ≤ 90 then b + 32 else b

/-- Mantissa-and-exponent grammar of Rust's `f64::from_str` (after the sign):
`digits [. digits] [e|E [sign] digits]` with at least one mantissa digit. -/
def f64DecimalGrammar (t : Bytes) : Bool :=
  let intPart := t.takeWhile isDigit
  let rest1 := t.dropWhile isDigit
  let fracPair : Bytes × Bytes :=
    match rest1 with
    | 46 :: r => (r.takeWhile isDigit, r.dropWhile isDigit)
    | _ => ([], rest1)
  let mantOk := decide (0 < intPart.length + fracPair.1.length)
  let expOk :=
    match fracPair.2 with
    | [] => true
    | 101 :: r =>
        let r2 := match r with
          | 43 :: rr => rr
          | 45 :: rr => rr
          | _ => r
        !r2.isEmpty && r2.all isDigit
    | 69 :: r =>
        let r2 := match r with
          | 43 :: rr => rr
          | 45 :: rr => rr
          | _ => r
        !r2.isEmpty && r2.all isDigit
    | _ => false
  mantOk && expOk

/-- Rust's `f64::from_str` under the `FloatVal` abstraction: the special
tokens `inf`/`infinity`/`nan` (any case, optional sign) and the decimal
grammar succeed — in particular `nan` parses successfully — and every other
token fails. -/
def rustParseF64 (s : Bytes) : Option FloatVal :=
  let core : Bytes → Bool → Option FloatVal := fun t neg =>
    let low := t.map asciiLower
    if low = [105, 110, 102] ∨ low = [105, 110, 102, 105, 110, 105, 116, 121] then
      some (if neg then .negInf else .inf)
    else if low = [110, 97, 110] then some .nan
    else if f64DecimalGrammar t then some (.finite s)
    else none
  match s with
  | 43 :: rest => core rest false
  | 45 :: rest => core rest true
  | _ => core s false

/-- `to_f64` of the source: a plain delegation to Rust's float parsing, with
no rejection of `nan`. -/
def to_f64 (s : Bytes) : Option FloatVal := rustParseF64 s

/-- `to_bool` of the source: exactly `t` or `f`. -/
def to_bool (s : Bytes) : Option Bool :=
  if s = [116] then some true
  else if s = [102] then some false
  else none

/-- `to_verbatimstring_format` of the source: exactly `txt` or `mkd`. -/
def to_verbatimstring_format (s : Bytes) : Option VerbatimStringFormat :=
  if s = [116, 120, 116] then some .Text
  else if s = [109, 107, 100] then some .Markdown
  else none

/-- Loop of the source's `to_map`: repeatedly pop the value then the key off
the end of the vector and insert the pair; popping off the end corresponds
to walking the reversed list two at a time. -/
def toMapRevLoop : List Frame → FrameMap → FrameMap
  | v :: k :: rest, out => toMapRevLoop rest (mapInsert out k v)
  | _, out => out

/-- `to_map` of the source: an odd child count is an error; otherwise the
pairs are inserted by popping from the end of the child vector. -/
def to_map (data : List Frame) : Option FrameMap :=
  if data.length % 2 ≠ 0 then none
  else some (toMapRevLoop data.reverse [])

/-- `to_set` of the source: inserts the children in order. -/
def to_set (data : List Frame) : Option FrameSet :=
  some (data.foldl setInsert [])

/-- `to_hello` of the source: version byte must be 2 or 3, credentials are
carried over verbatim. -/
def to_hello (version : Nat) (auth : Option (Bytes × Bytes)) : Option Frame :=
  match version with
  | 2 => some (.Hello .RESP2 (auth.map fun a => { username := a.1, password := a.2 }))
  | 3 => some (.Hello .RESP3 (auth.map fun a => { username := a.1, password := a.2 }))
  | _ => none

/-- `map_complete_frame` of the source. -/
def map_complete_frame (f : Frame) : DecodedFrame := .Complete f

/-- `unwrap_complete_frame` of the source. -/
def unwrap_complete_frame (df : DecodedFrame) : Option Frame :=
  df.into_complete_frame

def ctx_from_utf8 : String := "from_utf8"

def ctx_to_usize : String := "to_usize"

def ctx_to_isize : String := "to_isize"

def ctx_to_i64 : String := "to_i64"

def ctx_to_f64 : String := "to_f64"

def ctx_to_bool : String := "to_bool"

def ctx_to_verbatimstring_format : String := "to_verbatimstring_format"

def ctx_to_map : String := "to_map"

def ctx_to_set : String := "to_set"

def ctx_frame_type : String := "frame_type"

def ctx_isize_to_usize : String := "isize_to_usize"

def ctx_check_streaming : String := "check_streaming"

def ctx_parse_non_attribute_frame : String := "parse_non_attribute_frame"

def ctx_attach_attributes : String := "attach_attributes"

def ctx_unwrap_complete_frame : String := "unwrap_complete_frame"

def ctx_parse_hello : String := "parse_hello"

/-- `attach_attributes` of the source: delegate to
`DecodedFrame::add_attributes`, turning a rejection into a parse error. -/
def attach_attributes (attrs : Attributes) (frame : DecodedFrame) : Option DecodedFrame :=
  frame.add_attributes attrs

/-- `d_read_to_crlf`: everything before the first CRLF, then the CRLF. -/
def d_read_to_crlf (input : Bytes) : PResult Bytes :=
  (nomTakeUntil CRLF input).bind fun input data =>
    (nomTake 2 input).bind fun input _ => .ok input data

/-- `d_read_to_crlf_s`: a CRLF-terminated line as UTF-8 text. -/
def d_read_to_crlf_s (input : Bytes) : PResult Bytes :=
  mapRes (d_read_to_crlf input) ctx_from_utf8
    (fun v => if isValidUtf8 v then some v else none)

/-- `d_read_prefix_len`: a CRLF-terminated unsigned decimal length. -/
def d_read_prefix_len (input : Bytes) : PResult Nat :=
  mapRes (d_read_to_crlf_s input) ctx_to_usize to_usize

/-- `d_read_prefix_len_signed`: a CRLF-terminated signed length (`?` maps
to `-1`). -/
def d_read_prefix_len_signed (input : Bytes) : PResult Int :=
  mapRes (d_read_to_crlf_s input) ctx_to_isize to_isize

/-- `d_frame_type`: one byte, looked up in the frame-kind table. -/
def d_frame_type (input : Bytes) : PResult FrameKind :=
  (be_u8 input).bind fun input byte =>
    match FrameKind.from_byte byte with
    | some k => .ok input k
    | none => .error ctx_frame_type

/-- `d_parse_simplestring`. -/
def d_parse_simplestring (input : Bytes) : PResult Frame :=
  (d_read_to_crlf_s input).bind fun input data =>
    .ok input (.SimpleString data none)

/-- `d_parse_simpleerror`. -/
def d_parse_simpleerror (input : Bytes) : PResult Frame :=
  (d_read_to_crlf_s input).bind fun input data =>
    .ok input (.SimpleError data none)

/-- `d_parse_number`. -/
def d_parse_number (input : Bytes) : PResult Frame :=
  (mapRes (d_read_to_crlf_s input) ctx_to_i64 to_i64).bind fun input data =>
    .ok input (.Number data none)

/-- `d_parse_double`. -/
def d_parse_double (input : Bytes) : PResult Frame :=
  (mapRes (d_read_to_crlf_s input) ctx_to_f64 to_f64).bind fun input data =>
    .ok input (.Double data none)

/-- `d_parse_boolean`. -/
def d_parse_boolean (input : Bytes) : PResult Frame :=
  (mapRes (d_read_to_crlf_s input) ctx_to_bool to_bool).bind fun input data =>
    .ok input (.Boolean data none)

/-- `d_parse_null`. -/
def d_parse_null (input : Bytes) : PResult Frame :=
  (d_read_to_crlf_s input).bind fun input _ => .ok input .Null

/-- `d_parse_blobstring` (also used for a non-streamed `$` payload). -/
def d_parse_blobstring (input : Bytes) (len : Nat) : PResult Frame :=
  (nomTake len input).bind fun input data =>
    (nomTake 2 input).bind fun input _ =>
      .ok input (.BlobString data none)

/-- `d_parse_bloberror`. -/
def d_parse_bloberror (input : Bytes) : PResult Frame :=
  (d_read_prefix_len input).bind fun input len =>
    (nomTake len input).bind fun input data =>
      (nomTake 2 input).bind fun input _ =>
        .ok input (.BlobError data none)

/-- `d_parse_verbatimstring`: note the unchecked subtraction `len - 4` of
the source, modelled by the wrapping `usizeSub`. -/
def d_parse_verbatimstring (input : Bytes) : PResult Frame :=
  (d_read_prefix_len input).bind fun input len =>
    (mapRes ((nomTake 3 input).bind fun input fmt =>
        (nomTake 1 input).bind fun input _ => .ok input fmt) ctx_from_utf8
      (fun v => if isValidUtf8 v then some v else none)).bind fun input fmtBytes =>
      match to_verbatimstring_format fmtBytes with
      | none => .error ctx_to_verbatimstring_format
      | some format =>
          (nomTake (usizeSub len 4) input).bind fun input data =>
            (nomTake 2 input).bind fun input _ =>
              .ok input (.VerbatimString data format none)

/-- `d_parse_bignumber`: raw digit bytes, no interpretation. -/
def d_parse_bignumber (input : Bytes) : PResult Frame :=
  (d_read_to_crlf input).bind fun input data =>
    .ok input (.BigNumber data none)

/-- `d_parse_chunked_string`: a zero-length chunk is the end-of-stream
sentinel, any other chunk is a `ChunkedString`. -/
def d_parse_chunked_string (input : Bytes) : PResult DecodedFrame :=
  (d_read_prefix_len input).bind fun input len =>
    if len = 0 then .ok input (.Complete Frame.new_end_stream)
    else
      (nomTake len input).bind fun input contents =>
        (nomTake 2 input).bind fun input _ =>
          .ok input (.Complete (.ChunkedString contents))

/-- `d_return_end_stream`. -/
def d_return_end_stream (input : Bytes) : PResult DecodedFrame :=
  (d_read_to_crlf input).bind fun input _ =>
    .ok input (.Complete Frame.new_end_stream)

/-- `d_parse_hello`: transcribed exactly from the source, including the
`take_until(HELLO)` after the tag byte has already been consumed and the
`opt` around the AUTH section. -/
def d_parse_hello (input : Bytes) : PResult Frame :=
  (mapRes ((nomTakeUntil HELLO input).bind fun input pre =>
      (nomTake 1 input).bind fun input _ => .ok input pre) ctx_from_utf8
    (fun v => if isValidUtf8 v then some v else none)).bind fun input _ =>
  (be_u8 input).bind fun input version =>
  (nomOpt (fun b =>
      mapRes ((nomTakeUntil AUTH b).bind fun b2 pre =>
          (nomTake 1 b2).bind fun b3 _ => .ok b3 pre) ctx_from_utf8
        (fun v => if isValidUtf8 v then some v else none)) input).bind fun input auth =>
  (if auth.isSome then
      (mapRes ((nomTakeUntil EMPTY_SPACE input).bind fun i2 pre =>
          (nomTake 1 i2).bind fun i3 _ => .ok i3 pre) ctx_from_utf8
        (fun v => if isValidUtf8 v then some v else none)).bind fun input username =>
      (mapRes ((nomTakeUntil EMPTY_SPACE input).bind fun i2 pre =>
          (nomTake 1 i2).bind fun i3 _ => .ok i3 pre) ctx_from_utf8
        (fun v => if isValidUtf8 v then some v else none)).bind fun input password =>
      PResult.ok input (some (username, password))
    else PResult.ok input none).bind fun input auth =>
  match to_hello version auth with
  | some f => .ok input f
  | none => .error ctx_parse_hello

/-- One child frame of an aggregate: the recursive frame parse followed by
`unwrap_complete_frame` (the inner `nom_map_res` of `d_parse_array_frames`
and `d_parse_kv_pairs`); `rec` stands for `d_parse_frame_or_attribute`. -/
def recComplete (rec : Bytes → PResult DecodedFrame) (b : Bytes) : PResult Frame :=
  mapRes (rec b) ctx_unwrap_complete_frame unwrap_complete_frame

/-- `d_parse_array_frames`: `len` child frames. -/
def d_parse_array_frames (rec : Bytes → PResult DecodedFrame) (input : Bytes)
    (len : Nat) : PResult (List Frame) :=
  nomCount (recComplete rec) len input

/-- `d_parse_kv_pairs`: `len * 2` child frames folded into a map by
`to_map`. -/
def d_parse_kv_pairs (rec : Bytes → PResult DecodedFrame) (input : Bytes)
    (len : Nat) : PResult FrameMap :=
  mapRes (nomCount (recComplete rec) (len * 2) input) ctx_to_map to_map

/-- `d_parse_array`. -/
def d_parse_array (rec : Bytes → PResult DecodedFrame) (input : Bytes)
    (len : Nat) : PResult Frame :=
  (d_parse_array_frames rec input len).bind fun input data =>
    .ok input (.Array data none)

/-- `d_parse_push`. -/
def d_parse_push (rec : Bytes → PResult DecodedFrame) (input : Bytes) : PResult Frame :=
  (d_read_prefix_len input).bind fun input len =>
    (d_parse_array_frames rec input len).bind fun input data =>
      .ok input (.Push data none)

/-- `d_parse_set`. -/
def d_parse_set (rec : Bytes → PResult DecodedFrame) (input : Bytes)
    (len : Nat) : PResult Frame :=
  (d_parse_array_frames rec input len).bind fun input frames =>
    match to_set frames with
    | some s => .ok input (.Set s none)
    | none => .error ctx_to_set

/-- `d_parse_map`. -/
def d_parse_map (rec : Bytes → PResult DecodedFrame) (input : Bytes)
    (len : Nat) : PResult Frame :=
  (d_parse_kv_pairs rec input len).bind fun input frames =>
    .ok input (.Map frames none)

/-- `d_parse_attribute`. -/
def d_parse_attribute (rec : Bytes → PResult DecodedFrame) (input : Bytes) :
    PResult Attributes :=
  (d_read_prefix_len input).bind fun input len =>
    (d_parse_kv_pairs rec input len).bind fun input attributes =>
      .ok input attributes

/-- `d_check_streaming`: a `-1` (or `?`) length yields a streaming header;
otherwise the aggregate is parsed in full. -/
def d_check_streaming (rec : Bytes → PResult DecodedFrame) (input : Bytes)
    (kind : FrameKind) : PResult DecodedFrame :=
  (d_read_prefix_len_signed input).bind fun input len =>
    if len = -1 then .ok input (.Streaming (StreamedFrame.new kind))
    else
      match isize_to_usize len with
      | none => .error ctx_isize_to_usize
      | some l =>
          match kind with
          | .Array => (d_parse_array rec input l).bind fun input f =>
              .ok input (.Complete f)
          | .Set => (d_parse_set rec input l).bind fun input f =>
              .ok input (.Complete f)
          | .Map => (d_parse_map rec input l).bind fun input f =>
              .ok input (.Complete f)
          | .BlobString => (d_parse_blobstring input l).bind fun input f =>
              .ok input (.Complete f)
          | _ => .error ctx_check_streaming

/-- `d_parse_non_attribute_frame`: dispatch on the frame kind; an attribute
kind here is an error. -/
def d_parse_non_attribute_frame (rec : Bytes → PResult DecodedFrame)
    (input : Bytes) (kind : FrameKind) : PResult DecodedFrame :=
  match kind with
  | .Array => d_check_streaming rec input .Array
  | .BlobString => d_check_streaming rec input .BlobString
  | .Map => d_check_streaming rec input .Map
  | .Set => d_check_streaming rec input .Set
  | .SimpleString => (d_parse_simplestring input).bind fun input f =>
      .ok input (map_complete_frame f)
  | .SimpleError => (d_parse_simpleerror input).bind fun input f =>
      .ok input (map_complete_frame f)
  | .Number => (d_parse_number input).bind fun input f =>
      .ok input (map_complete_frame f)
  | .Null => (d_parse_null input).bind fun input f =>
      .ok input (map_complete_frame f)
  | .Double => (d_parse_double input).bind fun input f =>
      .ok input (map_complete_frame f)
  | .Boolean => (d_parse_boolean input).bind fun input f =>
      .ok input (map_complete_frame f)
  | .BlobError => (d_parse_bloberror input).bind fun input f =>
      .ok input (map_complete_frame f)
  | .VerbatimString => (d_parse_verbatimstring input).bind fun input f =>
      .ok input (map_complete_frame f)
  | .Push => (d_parse_push rec input).bind fun input f =>
      .ok input (map_complete_frame f)
  | .BigNumber => (d_parse_bignumber input).bind fun input f =>
      .ok input (map_complete_frame f)
  | .Hello => (d_parse_hello input).bind fun input f =>
      .ok input (map_complete_frame f)
  | .ChunkedString => d_parse_chunked_string input
  | .EndStream => d_return_end_stream input
  | .Attribute => .error ctx_parse_non_attribute_frame

/-- `d_parse_attribute_and_frame`: the attribute map, then the next frame,
then the attachment. -/
def d_parse_attribute_and_frame (rec : Bytes → PResult DecodedFrame)
    (input : Bytes) : PResult DecodedFrame :=
  (d_parse_attribute rec input).bind fun input attributes =>
    (d_frame_type input).bind fun input kind =>
      (d_parse_non_attribute_frame rec input kind).bind fun input next_frame =>
        match attach_attributes attributes next_frame with
        | some frame => .ok input frame
        | none => .error ctx_attach_attributes

/-- `d_parse_frame_or_attribute`, the recursive knot. The fuel decreases at
each recursion step; since every level first consumes the frame-kind byte,
the recursion depth on `buf` is at most `buf.length`, and the fuel
`buf.length + 1` supplied by `decode` is never exhausted (the fuel-out value
`incomplete` is unreachable there). -/
def d_parse_frame_or_attribute : Nat → Bytes → PResult DecodedFrame
  | 0, _ => .incomplete
  | fuel + 1, input =>
      (d_frame_type input).bind fun input kind =>
        match kind with
        | .Attribute =>
            d_parse_attribute_and_frame (d_parse_frame_or_attribute fuel) input
        | _ =>
            d_parse_non_attribute_frame (d_parse_frame_or_attribute fuel) input kind

namespace complete

/-- `complete::decode`: first frame plus bytes consumed; `Ok(None)` on
incomplete input; a streaming header is an error. -/
def decode (buf : Bytes) : Except String (Option (Frame × Nat)) :=
  match d_parse_frame_or_attribute (buf.length + 1) buf with
  | .ok remaining frame =>
      match frame.into_complete_frame with
      | some f => .ok (some (f, buf.length - remaining.length))
      | none => .error ctx_unwrap_complete_frame
  | .incomplete => .ok none
  | .error e => .error e

end complete

namespace streaming

/-- `streaming::decode`: first decoded frame (complete or streaming header)
plus bytes consumed; `Ok(None)` on incomplete input. -/
def decode (buf : Bytes) : Except String (Option (DecodedFrame × Nat)) :=
  match d_parse_frame_or_attribute (buf.length + 1) buf with
  | .ok remaining frame => .ok (some (frame, buf.length - remaining.length))
  | .incomplete => .ok none
  | .error e => .error e

end streaming

/-! Occurrence lemmas for the CRLF search underlying `take_until(CRLF)`. -/

/-- A CRLF pair occurs in `l` at position `i`. -/
def crlfAt (l : Bytes) (i : Nat) : Prop := ∃ u, l.drop i = 13 :: 10 :: u

theorem listStartsWith_crlf_iff (l : Bytes) :
    listStartsWith CRLF l = true ↔ ∃ u, l = 13 :: 10 :: u := by
  match l with
  | [] => simp [listStartsWith, CRLF]
  | [b] => simp [listStartsWith, CRLF]
  | b :: c :: u =>
      simp only [CRLF, listStartsWith, Bool.and_eq_true, beq_iff_eq]
      constructor
      · rintro ⟨h1, h2, -⟩
        exact ⟨u, by rw [← h1, ← h2]⟩
      · rintro ⟨u2, h⟩
        injection h with h1 h
        injection h with h2 h
        subst h1
        subst h2
        exact ⟨rfl, rfl, trivial⟩

theorem crlfAt_zero_iff (l : Bytes) : crlfAt l 0 ↔ ∃ u, l = 13 :: 10 :: u := by
  simp [crlfAt]

theorem crlfAt_cons_succ (b : Nat) (r : Bytes) (i : Nat) :
    crlfAt (b :: r) (i + 1) ↔ crlfAt r i := by
  simp [crlfAt, List.drop_succ_cons]

theorem crlfAt.le_length {l : Bytes} {i : Nat} (h : crlfAt l i) :
    i + 2 ≤ l.length := by
  obtain ⟨u, hu⟩ := h
  have h1 : l.length - i = (13 :: 10 :: u).length := by rw [← hu, List.length_drop]
  have h2 : i ≤ l.length := by
    by_contra hi
    rw [List.drop_of_length_le (by omega)] at hu
    exact absurd hu (by simp)
  simp only [List.length_cons] at h1
  omega

theorem findSub_crlf_some {l : Bytes} {i : Nat} (h : findSub CRLF l = some i) :
    crlfAt l i ∧ ∀ j, j < i → ¬ crlfAt l j := by
  induction l generalizing i with
  | nil => simp [findSub, listStartsWith, CRLF] at h
  | cons b r ih =>
      rw [findSub] at h
      by_cases hs : listStartsWith CRLF (b :: r) = true
      · rw [if_pos hs] at h
        injection h with h
        subst h
        refine ⟨(crlfAt_zero_iff _).2 ((listStartsWith_crlf_iff _).1 hs), ?_⟩
        omega
      · rw [if_neg hs, Option.map_eq_some'] at h
        obtain ⟨i2, hfind, hi⟩ := h
        obtain ⟨hat, hmin⟩ := ih hfind
        subst hi
        refine ⟨(crlfAt_cons_succ b r i2).2 hat, ?_⟩
        intro j hj
        match j with
        | 0 =>
            rw [crlfAt_zero_iff]
            intro hc
            exact hs ((listStartsWith_crlf_iff _).2 hc)
        | j2 + 1 =>
            rw [crlfAt_cons_succ]
            exact hmin j2 (by omega)

theorem findSub_crlf_eq_some {l : Bytes} {i : Nat} (hat : crlfAt l i)
    (hmin : ∀ j, j < i → ¬ crlfAt l j) : findSub CRLF l = some i := by
  induction l generalizing i with
  | nil =>
      exact absurd hat (by simp [crlfAt])
  | cons b r ih =>
      rw [findSub]
      match i with
      | 0 =>
          rw [if_pos ((listStartsWith_crlf_iff _).2 ((crlfAt_zero_iff _).1 hat))]
      | i2 + 1 =>
          have hz : ¬ crlfAt (b :: r) 0 := hmin 0 (by omega)
          have hs : ¬ listStartsWith CRLF (b :: r) = true := by
            intro hc
            exact hz ((crlfAt_zero_iff _).2 ((listStartsWith_crlf_iff _).1 hc))
          rw [if_neg hs]
          have hr : findSub CRLF r = some i2 := by
            refine ih ((crlfAt_cons_succ b r i2).1 hat) ?_
            intro j hj
            intro hc
            exact hmin (j + 1) (by omega) ((crlfAt_cons_succ b r j).2 hc)
          rw [hr, Option.map_some']

theorem findSub_crlf_eq_none {l : Bytes} (h : ∀ i, ¬ crlfAt l i) :
    findSub CRLF l = none := by
  match hf : findSub CRLF l with
  | none => rfl
  | some i => exact absurd (findSub_crlf_some hf).1 (h i)

/-- A successful generic tag search leaves the tag at the found position. -/
theorem findSub_some_startsWith {tag l : Bytes} {i : Nat}
    (h : findSub tag l = some i) : listStartsWith tag (l.drop i) = true := by
  induction l generalizing i with
  | nil =>
      rw [findSub] at h
      by_cases hs : listStartsWith tag [] = true
      · rw [if_pos hs] at h
        injection h with h
        subst h
        exact hs
      · rw [if_neg hs] at h
        exact absurd h (by simp)
  | cons b r ih =>
      rw [findSub] at h
      by_cases hs : listStartsWith tag (b :: r) = true
      · rw [if_pos hs] at h
        injection h with h
        subst h
        exact hs
      · rw [if_neg hs, Option.map_eq_some'] at h
        obtain ⟨i2, hfind, hi⟩ := h
        subst hi
        rw [List.drop_succ_cons]
        exact ih hfind

/-! Well-behavedness of the streaming parsers: a success determines the
consumed prefix `x`, succeeds identically on `x` followed by anything, and
reports `incomplete` (never an error, never a success) on every proper
prefix of `x`. These three facts drive the partial-input claim. -/

/-- A parser is a well-behaved streaming parser when every success splits
its input as `consumed ++ rest`, the same success happens after the same
consumed bytes whatever follows them, and every proper prefix of the
consumed bytes yields `incomplete`. -/
def StreamParser {α : Type} (p : Bytes → PResult α) : Prop :=
  ∀ b rest v, p b = .ok rest v →
    ∃ x, b = x ++ rest ∧ (∀ t, p (x ++ t) = .ok t v) ∧
      (∀ k, k < x.length → p (x.take k) = .incomplete)

theorem streamParser_never_ok {α : Type} {p : Bytes → PResult α}
    (h : ∀ b rest v, p b ≠ .ok rest v) : StreamParser p := by
  intro b rest v hok
  exact absurd hok (h b rest v)

theorem streamParser_ok_const {α : Type} (y : α) :
    StreamParser (fun b => PResult.ok b y) := by
  intro b rest v hok
  injection hok with h1 h2
  subst h1
  subst h2
  exact ⟨[], by simp, fun t => rfl, by simp⟩

theorem streamParser_error_const {α : Type} (e : String) :
    StreamParser (fun _ => (PResult.error e : PResult α)) :=
  streamParser_never_ok (fun _ _ _ h => by exact absurd h (by simp))

theorem streamParser_bind {α β : Type} {p : Bytes → PResult α}
    {g : Bytes → α → PResult β} (hp : StreamParser p)
    (hg : ∀ v, StreamParser (fun b => g b v)) :
    StreamParser (fun b => (p b).bind g) := by
  intro b rest v hok
  simp only at hok
  match hp1 : p b with
  | .incomplete => rw [hp1] at hok; exact absurd hok (by simp [PResult.bind])
  | .error e => rw [hp1] at hok; exact absurd hok (by simp [PResult.bind])
  | .ok r1 v1 =>
      rw [hp1] at hok
      simp only [PResult.bind] at hok
      obtain ⟨x1, hb1, hext1, hpre1⟩ := hp b r1 v1 hp1
      obtain ⟨x2, hb2, hext2, hpre2⟩ := hg v1 r1 rest v hok
      refine ⟨x1 ++ x2, ?_, ?_, ?_⟩
      · rw [hb1, hb2, List.append_assoc]
      · intro t
        have h1 : p ((x1 ++ x2) ++ t) = .ok (x2 ++ t) v1 := by
          rw [List.append_assoc]
          exact hext1 (x2 ++ t)
        simp only [h1, PResult.bind]
        exact hext2 t
      · intro k hk
        by_cases hk1 : k < x1.length
        · have hx : (x1 ++ x2).take k = x1.take k := by
            rw [List.take_append_eq_append_take, Nat.sub_eq_zero_of_le (by omega),
              List.take_zero, List.append_nil]
          simp only [hx, hpre1 k hk1, PResult.bind]
        · have hx : (x1 ++ x2).take k = x1 ++ x2.take (k - x1.length) := by
            rw [List.take_append_eq_append_take,
              List.take_of_length_le (by omega)]
          have h1 : p (x1 ++ x2.take (k - x1.length)) =
              .ok (x2.take (k - x1.length)) v1 := hext1 _
          rw [hx]
          simp only [h1, PResult.bind]
          refine hpre2 (k - x1.length) ?_
          rw [List.length_append] at hk
          omega

theorem streamParser_mapRes {α β : Type} {p : Bytes → PResult α}
    (hp : StreamParser p) (ctx : String) (f : α → Option β) :
    StreamParser (fun b => mapRes (p b) ctx f) := by
  refine streamParser_bind hp ?_
  intro v
  match f v with
  | some x => exact streamParser_ok_const x
  | none => exact streamParser_error_const ctx

theorem streamParser_be_u8 : StreamParser be_u8 := by
  intro b rest v hok
  match b with
  | [] => exact absurd hok (by simp [be_u8])
  | c :: r =>
      have h1 : r = rest := by injection hok
      have h2 : c = v := by injection hok
      subst h1
      subst h2
      refine ⟨[c], rfl, fun t => rfl, ?_⟩
      intro k hk
      have hk0 : k = 0 := by simpa using hk
      subst hk0
      rfl

theorem streamParser_nomTake (n : Nat) : StreamParser (nomTake n) := by
  intro b rest v hok
  rw [nomTake] at hok
  by_cases hn : n ≤ b.length
  · rw [if_pos hn] at hok
    injection hok with h1 h2
    subst h1
    subst h2
    have hlen : (b.take n).length = n := List.length_take_of_le hn
    refine ⟨b.take n, (List.take_append_drop n b).symm, ?_, ?_⟩
    · intro t
      rw [nomTake, if_pos (by rw [List.length_append, hlen]; omega),
        List.take_left' hlen, List.drop_left' hlen]
    · intro k hk
      rw [hlen] at hk
      rw [nomTake, if_neg]
      simp only [List.length_take, hlen]
      omega
  · rw [if_neg hn] at hok
    exact absurd hok (by simp)

theorem crlfAt_of_take {l : Bytes} {m j : Nat} {u : Bytes}
    (h : (l.drop j).take m = 13 :: 10 :: u) : crlfAt l j := by
  have hsplit := List.take_append_drop m (l.drop j)
  rw [h] at hsplit
  exact ⟨u ++ (l.drop j).drop m, hsplit.symm.trans (by simp)⟩

theorem streamParser_read_to_crlf : StreamParser d_read_to_crlf := by
  intro b rest v hok
  rw [d_read_to_crlf, nomTakeUntil] at hok
  match hf : findSub CRLF b with
  | none => rw [hf] at hok; exact absurd hok (by simp [PResult.bind])
  | some i =>
      rw [hf] at hok
      obtain ⟨hat, hmin⟩ := findSub_crlf_some hf
      have hlen : i + 2 ≤ b.length := hat.le_length
      obtain ⟨u, hu⟩ := hat
      have h2le : 2 ≤ (b.drop i).length := by rw [List.length_drop]; omega
      rw [PResult.bind, nomTake, if_pos h2le, PResult.bind] at hok
      injection hok with h1 h2
      subst h2
      have hrest : rest = b.drop (i + 2) := by
        rw [← h1, List.drop_drop]
      subst hrest
      have hxlen : (b.take (i + 2)).length = i + 2 := List.length_take_of_le hlen
      have hdropx : (b.take (i + 2)).drop i = [13, 10] := by
        rw [List.drop_take, hu]
        have h2 : i + 2 - i = 2 := by omega
        rw [h2]
        rfl
      refine ⟨b.take (i + 2), (List.take_append_drop _ b).symm, ?_, ?_⟩
      · intro t
        have hcr : crlfAt (b.take (i + 2) ++ t) i := by
          refine ⟨t, ?_⟩
          rw [List.drop_append_of_le_length (by omega), hdropx]
          rfl
        have hcrmin : ∀ j, j < i → ¬ crlfAt (b.take (i + 2) ++ t) j := by
          intro j hj hc
          obtain ⟨u2, hu2⟩ := hc
          rw [List.drop_append_of_le_length (by omega), List.drop_take] at hu2
          have hwlen : ((b.drop j).take (i + 2 - j)).length = i + 2 - j := by
            rw [List.length_take, List.length_drop]
            omega
          refine hmin j hj ?_
          match hw : (b.drop j).take (i + 2 - j) with
          | [] => rw [hw] at hwlen; simp at hwlen; omega
          | [a] => rw [hw] at hwlen; simp at hwlen; omega
          | a :: a2 :: w =>
              rw [hw] at hu2
              have e1 : a = 13 := by injection hu2
              have e2 : a2 = 10 := by
                have := hu2
                injection this with e this
                injection this
              subst e1
              subst e2
              exact crlfAt_of_take hw
        have htake : (b.take (i + 2) ++ t).take i = b.take i := by
          rw [List.take_append_of_le_length (by omega), List.take_take,
            Nat.min_def, if_pos (by omega)]
        rw [d_read_to_crlf, nomTakeUntil, findSub_crlf_eq_some hcr hcrmin,
          PResult.bind, List.drop_append_of_le_length (by omega), hdropx, nomTake,
          if_pos (by simp), PResult.bind, htake]
        rfl
      · intro k hk
        rw [hxlen] at hk
        have htk : (b.take (i + 2)).take k = b.take k := by
          rw [List.take_take, Nat.min_def, if_pos (by omega)]
        rw [htk, d_read_to_crlf, nomTakeUntil, findSub_crlf_eq_none, PResult.bind]
        intro j hc
        obtain ⟨u2, hu2⟩ := hc
        rw [List.drop_take] at hu2
        have hwlen : ((b.drop j).take (k - j)).length = 2 + u2.length := by
          rw [hu2]
          simp
          omega
        have hwlen2 : ((b.drop j).take (k - j)).length ≤ k - j :=
          List.length_take_le _ _
        have hji : j < i := by omega
        exact absurd (crlfAt_of_take hu2) (hmin j hji)

theorem streamParser_read_to_crlf_s : StreamParser d_read_to_crlf_s :=
  streamParser_mapRes streamParser_read_to_crlf _ _

theorem streamParser_read_prefix_len : StreamParser d_read_prefix_len :=
  streamParser_mapRes streamParser_read_to_crlf_s _ _

theorem streamParser_read_prefix_len_signed : StreamParser d_read_prefix_len_signed :=
  streamParser_mapRes streamParser_read_to_crlf_s _ _

theorem streamParser_frame_type : StreamParser d_frame_type := by
  refine streamParser_bind streamParser_be_u8 ?_
  intro byte
  match FrameKind.from_byte byte with
  | some k => exact streamParser_ok_const k
  | none => exact streamParser_error_const _

theorem streamParser_simplestring : StreamParser d_parse_simplestring :=
  streamParser_bind streamParser_read_to_crlf_s fun v => streamParser_ok_const _

theorem streamParser_simpleerror : StreamParser d_parse_simpleerror :=
  streamParser_bind streamParser_read_to_crlf_s fun v => streamParser_ok_const _

theorem streamParser_number : StreamParser d_parse_number :=
  streamParser_bind (streamParser_mapRes streamParser_read_to_crlf_s _ _)
    fun v => streamParser_ok_const _

theorem streamParser_double : StreamParser d_parse_double :=
  streamParser_bind (streamParser_mapRes streamParser_read_to_crlf_s _ _)
    fun v => streamParser_ok_const _

theorem streamParser_boolean : StreamParser d_parse_boolean :=
  streamParser_bind (streamParser_mapRes streamParser_read_to_crlf_s _ _)
    fun v => streamParser_ok_const _

theorem streamParser_null : StreamParser d_parse_null :=
  streamParser_bind streamParser_read_to_crlf_s fun v => streamParser_ok_const _

theorem streamParser_blobstring (len : Nat) :
    StreamParser (fun b => d_parse_blobstring b len) :=
  streamParser_bind (streamParser_nomTake len) fun v =>
    streamParser_bind (streamParser_nomTake 2) fun v2 => streamParser_ok_const _

theorem streamParser_bloberror : StreamParser d_parse_bloberror :=
  streamParser_bind streamParser_read_prefix_len fun len =>
    streamParser_bind (streamParser_nomTake len) fun v =>
      streamParser_bind (streamParser_nomTake 2) fun v2 => streamParser_ok_const _

theorem streamParser_verbatimstring : StreamParser d_parse_verbatimstring := by
  refine streamParser_bind streamParser_read_prefix_len ?_
  intro len
  refine streamParser_bind (streamParser_mapRes (streamParser_bind
    (streamParser_nomTake 3) fun fmt => streamParser_bind (streamParser_nomTake 1)
      fun v2 => streamParser_ok_const _) _ _) ?_
  intro fmtBytes
  match to_verbatimstring_format fmtBytes with
  | none => exact streamParser_error_const _
  | some format =>
      exact streamParser_bind (streamParser_nomTake (usizeSub len 4)) fun v =>
        streamParser_bind (streamParser_nomTake 2) fun v2 => streamParser_ok_const _

theorem streamParser_bignumber : StreamParser d_parse_bignumber :=
  streamParser_bind streamParser_read_to_crlf fun v => streamParser_ok_const _

theorem streamParser_chunked_string : StreamParser d_parse_chunked_string := by
  refine streamParser_bind streamParser_read_prefix_len ?_
  intro len
  by_cases hl : len = 0
  · simp only [hl, if_pos]
    exact streamParser_ok_const _
  · simp only [if_neg hl]
    exact streamParser_bind (streamParser_nomTake len) fun v =>
      streamParser_bind (streamParser_nomTake 2) fun v2 => streamParser_ok_const _

theorem streamParser_return_end_stream : StreamParser d_return_end_stream :=
  streamParser_bind streamParser_read_to_crlf fun v => streamParser_ok_const _

theorem streamParser_nomCount {α : Type} {p : Bytes → PResult α}
    (hp : StreamParser p) : ∀ n, StreamParser (fun b => nomCount p n b) := by
  intro n
  induction n with
  | zero => exact streamParser_ok_const []
  | succ n ih =>
      exact streamParser_bind hp fun v =>
        streamParser_bind ih fun vs => streamParser_ok_const _

theorem PResult.isOk_bind {α β : Type} {r : PResult α} {g : Bytes → α → PResult β}
    (h : ∀ b v, (g b v).isOk = false) : (r.bind g).isOk = false := by
  cases r with
  | ok rest v => exact h rest v
  | incomplete => rfl
  | error e => rfl

theorem to_hello_69 (auth : Option (Bytes × Bytes)) : to_hello 69 auth = none := rfl

/-- The Hello branch of the decoder can never succeed: after the tag byte
`H` has been consumed by `d_frame_type`, `take_until(HELLO)` leaves the
input at a later occurrence of the full token `HELLO`, `take(1)` consumes
only its `H`, and the following `be_u8` therefore always reads the byte
`E` (69) as the version, which `to_hello` rejects. -/
theorem d_parse_hello_never_ok (input : Bytes) : (d_parse_hello input).isOk = false := by
  rw [d_parse_hello, nomTakeUntil]
  match hfu : findSub HELLO input with
  | none => rfl
  | some i =>
      have hsw := findSub_some_startsWith hfu
      obtain ⟨u, hu⟩ : ∃ u, input.drop i = 72 :: 69 :: 76 :: 76 :: 79 :: u := by
        match hd : input.drop i with
        | [] => rw [hd] at hsw; exact absurd hsw (by simp [HELLO, listStartsWith])
        | [b1] => rw [hd] at hsw; exact absurd hsw (by simp [HELLO, listStartsWith])
        | [b1, b2] => rw [hd] at hsw; exact absurd hsw (by simp [HELLO, listStartsWith])
        | [b1, b2, b3] => rw [hd] at hsw; exact absurd hsw (by simp [HELLO, listStartsWith])
        | [b1, b2, b3, b4] => rw [hd] at hsw; exact absurd hsw (by simp [HELLO, listStartsWith])
        | b1 :: b2 :: b3 :: b4 :: b5 :: u =>
            rw [hd] at hsw
            simp only [HELLO, listStartsWith, Bool.and_eq_true, beq_iff_eq] at hsw
            obtain ⟨e1, e2, e3, e4, e5, -⟩ := hsw
            exact ⟨u, by rw [← e1, ← e2, ← e3, ← e4, ← e5]⟩
      have htk : nomTake 1 (72 :: 69 :: 76 :: 76 :: 79 :: u) =
          .ok (69 :: 76 :: 76 :: 79 :: u) [72] := rfl
      have hbe : be_u8 (69 :: 76 :: 76 :: 79 :: u) = .ok (76 :: 76 :: 79 :: u) 69 := rfl
      simp only [hu, PResult.bind, htk, mapRes]
      by_cases hva : isValidUtf8 (input.take i) = true
      · simp only [hva, if_true, PResult.bind, hbe]
        refine PResult.isOk_bind ?_
        intro b2 auth
        refine PResult.isOk_bind ?_
        intro b3 auth2
        rw [to_hello_69]
        rfl
      · simp only [hva, if_false, Bool.false_eq_true]
        rfl

theorem streamParser_hello : StreamParser d_parse_hello := by
  refine streamParser_never_ok ?_
  intro b rest v hok
  have h := d_parse_hello_never_ok b
  rw [hok] at h
  exact absurd h (by simp [PResult.isOk])

theorem streamParser_recComplete {rec : Bytes → PResult DecodedFrame}
    (hrec : StreamParser rec) : StreamParser (recComplete rec) :=
  streamParser_mapRes hrec _ _

theorem streamParser_array_frames {rec : Bytes → PResult DecodedFrame}
    (hrec : StreamParser rec) (len : Nat) :
    StreamParser (fun b => d_parse_array_frames rec b len) :=
  streamParser_nomCount (streamParser_recComplete hrec) len

theorem streamParser_kv_pairs {rec : Bytes → PResult DecodedFrame}
    (hrec : StreamParser rec) (len : Nat) :
    StreamParser (fun b => d_parse_kv_pairs rec b len) :=
  streamParser_mapRes (streamParser_nomCount (streamParser_recComplete hrec) (len * 2)) _ _

theorem streamParser_array {rec : Bytes → PResult DecodedFrame}
    (hrec : StreamParser rec) (len : Nat) :
    StreamParser (fun b => d_parse_array rec b len) :=
  streamParser_bind (streamParser_array_frames hrec len) fun v => streamParser_ok_const _

theorem streamParser_push {rec : Bytes → PResult DecodedFrame}
    (hrec : StreamParser rec) : StreamParser (d_parse_push rec) :=
  streamParser_bind streamParser_read_prefix_len fun len =>
    streamParser_bind (streamParser_array_frames hrec len) fun v => streamParser_ok_const _

theorem streamParser_set {rec : Bytes → PResult DecodedFrame}
    (hrec : StreamParser rec) (len : Nat) :
    StreamParser (fun b => d_parse_set rec b len) := by
  refine streamParser_bind (streamParser_array_frames hrec len) ?_
  intro frames
  match to_set frames with
  | some s => exact streamParser_ok_const _
  | none => exact streamParser_error_const _

theorem streamParser_map {rec : Bytes → PResult DecodedFrame}
    (hrec : StreamParser rec) (len : Nat) :
    StreamParser (fun b => d_parse_map rec b len) :=
  streamParser_bind (streamParser_kv_pairs hrec len) fun v => streamParser_ok_const _

theorem streamParser_attribute {rec : Bytes → PResult DecodedFrame}
    (hrec : StreamParser rec) : StreamParser (d_parse_attribute rec) :=
  streamParser_bind streamParser_read_prefix_len fun len =>
    streamParser_bind (streamParser_kv_pairs hrec len) fun v => streamParser_ok_const _

theorem streamParser_check_streaming {rec : Bytes → PResult DecodedFrame}
    (hrec : StreamParser rec) (kind : FrameKind) :
    StreamParser (fun b => d_check_streaming rec b kind) := by
  refine streamParser_bind streamParser_read_prefix_len_signed ?_
  intro len
  by_cases hl : len = -1
  · simp only [hl, if_pos]
    exact streamParser_ok_const _
  · simp only [if_neg hl]
    match isize_to_usize len with
    | none => exact streamParser_error_const _
    | some l =>
        match kind with
        | .Array => exact streamParser_bind (streamParser_array hrec l) fun v =>
            streamParser_ok_const _
        | .Set => exact streamParser_bind (streamParser_set hrec l) fun v =>
            streamParser_ok_const _
        | .Map => exact streamParser_bind (streamParser_map hrec l) fun v =>
            streamParser_ok_const _
        | .BlobString => exact streamParser_bind (streamParser_blobstring l) fun v =>
            streamParser_ok_const _
        | .SimpleString => exact streamParser_error_const _
        | .SimpleError => exact streamParser_error_const _
        | .Number => exact streamParser_error_const _
        | .Double => exact streamParser_error_const _
        | .Boolean => exact streamParser_error_const _
        | .Null => exact streamParser_error_const _
        | .BlobError => exact streamParser_error_const _
        | .VerbatimString => exact streamParser_error_const _
        | .BigNumber => exact streamParser_error_const _
        | .Push => exact streamParser_error_const _
        | .Hello => exact streamParser_error_const _
        | .ChunkedString => exact streamParser_error_const _
        | .EndStream => exact streamParser_error_const _
        | .Attribute => exact streamParser_error_const _

theorem streamParser_non_attribute_frame {rec : Bytes → PResult DecodedFrame}
    (hrec : StreamParser rec) (kind : FrameKind) :
    StreamParser (fun b => d_parse_non_attribute_frame rec b kind) := by
  match kind with
  | .Array => exact streamParser_check_streaming hrec _
  | .BlobString => exact streamParser_check_streaming hrec _
  | .Map => exact streamParser_check_streaming hrec _
  | .Set => exact streamParser_check_streaming hrec _
  | .SimpleString => exact streamParser_bind streamParser_simplestring fun v =>
      streamParser_ok_const _
  | .SimpleError => exact streamParser_bind streamParser_simpleerror fun v =>
      streamParser_ok_const _
  | .Number => exact streamParser_bind streamParser_number fun v =>
      streamParser_ok_const _
  | .Null => exact streamParser_bind streamParser_null fun v =>
      streamParser_ok_const _
  | .Double => exact streamParser_bind streamParser_double fun v =>
      streamParser_ok_const _
  | .Boolean => exact streamParser_bind streamParser_boolean fun v =>
      streamParser_ok_const _
  | .BlobError => exact streamParser_bind streamParser_bloberror fun v =>
      streamParser_ok_const _
  | .VerbatimString => exact streamParser_bind streamParser_verbatimstring fun v =>
      streamParser_ok_const _
  | .Push => exact streamParser_bind (streamParser_push hrec) fun v =>
      streamParser_ok_const _
  | .BigNumber => exact streamParser_bind streamParser_bignumber fun v =>
      streamParser_ok_const _
  | .Hello => exact streamParser_bind streamParser_hello fun v =>
      streamParser_ok_const _
  | .ChunkedString => exact streamParser_chunked_string
  | .EndStream => exact streamParser_return_end_stream
  | .Attribute => exact streamParser_error_const _

theorem streamParser_attribute_and_frame {rec : Bytes → PResult DecodedFrame}
    (hrec : StreamParser rec) : StreamParser (d_parse_attribute_and_frame rec) := by
  refine streamParser_bind (streamParser_attribute hrec) ?_
  intro attrs
  refine streamParser_bind streamParser_frame_type ?_
  intro kind
  refine streamParser_bind (streamParser_non_attribute_frame hrec kind) ?_
  intro nf
  match attach_attributes attrs nf with
  | some frame => exact streamParser_ok_const _
  | none => exact streamParser_error_const _

/-- Every fuel stage of the frame decoder is a well-behaved streaming
parser. -/
theorem streamParser_frame_or_attribute :
    ∀ fuel, StreamParser (d_parse_frame_or_attribute fuel) := by
  intro fuel
  induction fuel with
  | zero => exact streamParser_never_ok (fun b rest v h => by exact absurd h (by simp [d_parse_frame_or_attribute]))
  | succ fuel ih =>
      show StreamParser (fun b => d_parse_frame_or_attribute (fuel + 1) b)
      refine streamParser_bind streamParser_frame_type ?_
      intro kind
      match kind with
      | .Attribute => exact streamParser_attribute_and_frame ih
      | .Array => exact streamParser_non_attribute_frame ih _
      | .BlobString => exact streamParser_non_attribute_frame ih _
      | .Map => exact streamParser_non_attribute_frame ih _
      | .Set => exact streamParser_non_attribute_frame ih _
      | .SimpleString => exact streamParser_non_attribute_frame ih _
      | .SimpleError => exact streamParser_non_attribute_frame ih _
      | .Number => exact streamParser_non_attribute_frame ih _
      | .Null => exact streamParser_non_attribute_frame ih _
      | .Double => exact streamParser_non_attribute_frame ih _
      | .Boolean => exact streamParser_non_attribute_frame ih _
      | .BlobError => exact streamParser_non_attribute_frame ih _
      | .VerbatimString => exact streamParser_non_attribute_frame ih _
      | .Push => exact streamParser_non_attribute_frame ih _
      | .BigNumber => exact streamParser_non_attribute_frame ih _
      | .Hello => exact streamParser_non_attribute_frame ih _
      | .ChunkedString => exact streamParser_non_attribute_frame ih _
      | .EndStream => exact streamParser_non_attribute_frame ih _

/-! Fuel monotonicity: running the decoder with less fuel yields either the
same result or `incomplete`. Since every combinator propagates
`incomplete`, this relation is a congruence for all parser constructions,
and it lets results move between the fuel amounts used by `decode` on
inputs of different lengths. -/

/-- Refinement of parser results: the left result is the right one, or the
left run gave up earlier with `incomplete`. -/
def PLe {α : Type} (r r2 : PResult α) : Prop := r = .incomplete ∨ r = r2

theorem PLe.refl {α : Type} (r : PResult α) : PLe r r := Or.inr rfl

theorem PLe.incomplete_left {α : Type} (r : PResult α) : PLe .incomplete r := Or.inl rfl

theorem PLe.ok_mono {α : Type} {r r2 : PResult α} {rest : Bytes} {v : α}
    (h : PLe r r2) (hok : r = .ok rest v) : r2 = .ok rest v := by
  rcases h with h | h
  · rw [h] at hok
    exact absurd hok (by simp)
  · rw [← h]
    exact hok

theorem PLe.incomplete_anti {α : Type} {r r2 : PResult α}
    (h : PLe r r2) (hi : r2 = .incomplete) : r = .incomplete := by
  rcases h with h | h
  · exact h
  · rw [h]
    exact hi

theorem PLe.bind {α β : Type} {r r2 : PResult α} {g g2 : Bytes → α → PResult β}
    (hr : PLe r r2) (hg : ∀ b v, PLe (g b v) (g2 b v)) :
    PLe (r.bind g) (r2.bind g2) := by
  rcases hr with h | h
  · rw [h]
    exact PLe.incomplete_left _
  · subst h
    match r with
    | .ok rest v => exact hg rest v
    | .incomplete => exact PLe.refl _
    | .error e => exact PLe.refl _

theorem PLe.mapRes {α β : Type} {r r2 : PResult α} (h : PLe r r2)
    (ctx : String) (f : α → Option β) : PLe (mapRes r ctx f) (mapRes r2 ctx f) :=
  PLe.bind h fun _ _ => PLe.refl _

theorem nomCount_mono {α : Type} {p p2 : Bytes → PResult α}
    (hp : ∀ b, PLe (p b) (p2 b)) : ∀ n b, PLe (nomCount p n b) (nomCount p2 n b) := by
  intro n
  induction n with
  | zero => intro b; exact PLe.refl _
  | succ n ih =>
      intro b
      exact PLe.bind (hp b) fun rest v => PLe.bind (ih rest) fun rest2 vs => PLe.refl _

theorem recComplete_mono {rec rec2 : Bytes → PResult DecodedFrame}
    (hrec : ∀ b, PLe (rec b) (rec2 b)) (b : Bytes) :
    PLe (recComplete rec b) (recComplete rec2 b) :=
  PLe.mapRes (hrec b) _ _

theorem array_frames_mono {rec rec2 : Bytes → PResult DecodedFrame}
    (hrec : ∀ b, PLe (rec b) (rec2 b)) (b : Bytes) (len : Nat) :
    PLe (d_parse_array_frames rec b len) (d_parse_array_frames rec2 b len) :=
  nomCount_mono (recComplete_mono hrec) len b

theorem kv_pairs_mono {rec rec2 : Bytes → PResult DecodedFrame}
    (hrec : ∀ b, PLe (rec b) (rec2 b)) (b : Bytes) (len : Nat) :
    PLe (d_parse_kv_pairs rec b len) (d_parse_kv_pairs rec2 b len) :=
  PLe.mapRes (nomCount_mono (recComplete_mono hrec) (len * 2) b) _ _

theorem parse_array_mono {rec rec2 : Bytes → PResult DecodedFrame}
    (hrec : ∀ b, PLe (rec b) (rec2 b)) (b : Bytes) (len : Nat) :
    PLe (d_parse_array rec b len) (d_parse_array rec2 b len) :=
  PLe.bind (array_frames_mono hrec b len) fun rest v => PLe.refl _

theorem parse_set_mono {rec rec2 : Bytes → PResult DecodedFrame}
    (hrec : ∀ b, PLe (rec b) (rec2 b)) (b : Bytes) (len : Nat) :
    PLe (d_parse_set rec b len) (d_parse_set rec2 b len) :=
  PLe.bind (array_frames_mono hrec b len) fun rest v => PLe.refl _

theorem parse_map_mono {rec rec2 : Bytes → PResult DecodedFrame}
    (hrec : ∀ b, PLe (rec b) (rec2 b)) (b : Bytes) (len : Nat) :
    PLe (d_parse_map rec b len) (d_parse_map rec2 b len) :=
  PLe.bind (kv_pairs_mono hrec b len) fun rest v => PLe.refl _

theorem parse_push_mono {rec rec2 : Bytes → PResult DecodedFrame}
    (hrec : ∀ b, PLe (rec b) (rec2 b)) (b : Bytes) :
    PLe (d_parse_push rec b) (d_parse_push rec2 b) :=
  PLe.bind (PLe.refl _) fun rest len =>
    PLe.bind (array_frames_mono hrec rest len) fun rest2 v => PLe.refl _

theorem parse_attribute_mono {rec rec2 : Bytes → PResult DecodedFrame}
    (hrec : ∀ b, PLe (rec b) (rec2 b)) (b : Bytes) :
    PLe (d_parse_attribute rec b) (d_parse_attribute rec2 b) :=
  PLe.bind (PLe.refl _) fun rest len =>
    PLe.bind (kv_pairs_mono hrec rest len) fun rest2 v => PLe.refl _

theorem check_streaming_mono {rec rec2 : Bytes → PResult DecodedFrame}
    (hrec : ∀ b, PLe (rec b) (rec2 b)) (b : Bytes) (kind : FrameKind) :
    PLe (d_check_streaming rec b kind) (d_check_streaming rec2 b kind) := by
  refine PLe.bind (PLe.refl _) ?_
  intro rest len
  by_cases hl : len = -1
  · simp only [hl, if_pos]
    exact PLe.refl _
  · simp only [if_neg hl]
    match isize_to_usize len with
    | none => exact PLe.refl _
    | some l =>
        match kind with
        | .Array => exact PLe.bind (parse_array_mono hrec rest l) fun r v => PLe.refl _
        | .Set => exact PLe.bind (parse_set_mono hrec rest l) fun r v => PLe.refl _
        | .Map => exact PLe.bind (parse_map_mono hrec rest l) fun r v => PLe.refl _
        | .BlobString => exact PLe.refl _
        | .SimpleString => exact PLe.refl _
        | .SimpleError => exact PLe.refl _
        | .Number => exact PLe.refl _
        | .Double => exact PLe.refl _
        | .Boolean => exact PLe.refl _
        | .Null => exact PLe.refl _
        | .BlobError => exact PLe.refl _
        | .VerbatimString => exact PLe.refl _
        | .BigNumber => exact PLe.refl _
        | .Push => exact PLe.refl _
        | .Hello => exact PLe.refl _
        | .ChunkedString => exact PLe.refl _
        | .EndStream => exact PLe.refl _
        | .Attribute => exact PLe.refl _

theorem non_attribute_frame_mono {rec rec2 : Bytes → PResult DecodedFrame}
    (hrec : ∀ b, PLe (rec b) (rec2 b)) (b : Bytes) (kind : FrameKind) :
    PLe (d_parse_non_attribute_frame rec b kind)
      (d_parse_non_attribute_frame rec2 b kind) := by
  match kind with
  | .Array => exact check_streaming_mono hrec b _
  | .BlobString => exact check_streaming_mono hrec b _
  | .Map => exact check_streaming_mono hrec b _
  | .Set => exact check_streaming_mono hrec b _
  | .SimpleString => exact PLe.refl _
  | .SimpleError => exact PLe.refl _
  | .Number => exact PLe.refl _
  | .Null => exact PLe.refl _
  | .Double => exact PLe.refl _
  | .Boolean => exact PLe.refl _
  | .BlobError => exact PLe.refl _
  | .VerbatimString => exact PLe.refl _
  | .Push => exact PLe.bind (parse_push_mono hrec b) fun r v => PLe.refl _
  | .BigNumber => exact PLe.refl _
  | .Hello => exact PLe.refl _
  | .ChunkedString => exact PLe.refl _
  | .EndStream => exact PLe.refl _
  | .Attribute => exact PLe.refl _

theorem attribute_and_frame_mono {rec rec2 : Bytes → PResult DecodedFrame}
    (hrec : ∀ b, PLe (rec b) (rec2 b)) (b : Bytes) :
    PLe (d_parse_attribute_and_frame rec b) (d_parse_attribute_and_frame rec2 b) :=
  PLe.bind (parse_attribute_mono hrec b) fun r1 attrs =>
    PLe.bind (PLe.refl _) fun r2 kind =>
      PLe.bind (non_attribute_frame_mono hrec r2 kind) fun r3 nf => PLe.refl _

/-- Less fuel refines more fuel: the decoder result with smaller fuel is
either identical or `incomplete`. -/
theorem frame_or_attribute_mono :
    ∀ fuel fuel2, fuel ≤ fuel2 → ∀ b,
      PLe (d_parse_frame_or_attribute fuel b) (d_parse_frame_or_attribute fuel2 b) := by
  intro fuel
  induction fuel with
  | zero =>
      intro fuel2 h b
      exact PLe.incomplete_left _
  | succ fuel ih =>
      intro fuel2 h b
      match fuel2 with
      | 0 => omega
      | fuel2 + 1 =>
          have hrec : ∀ b2, PLe (d_parse_frame_or_attribute fuel b2)
              (d_parse_frame_or_attribute fuel2 b2) := ih fuel2 (by omega)
          refine PLe.bind (PLe.refl (d_frame_type b)) ?_
          intro rest kind
          match kind with
          | .Attribute => exact attribute_and_frame_mono hrec rest
          | .Array => exact non_attribute_frame_mono hrec rest _
          | .BlobString => exact non_attribute_frame_mono hrec rest _
          | .Map => exact non_attribute_frame_mono hrec rest _
          | .Set => exact non_attribute_frame_mono hrec rest _
          | .SimpleString => exact non_attribute_frame_mono hrec rest _
          | .SimpleError => exact non_attribute_frame_mono hrec rest _
          | .Number => exact non_attribute_frame_mono hrec rest _
          | .Null => exact non_attribute_frame_mono hrec rest _
          | .Double => exact non_attribute_frame_mono hrec rest _
          | .Boolean => exact non_attribute_frame_mono hrec rest _
          | .BlobError => exact non_attribute_frame_mono hrec rest _
          | .VerbatimString => exact non_attribute_frame_mono hrec rest _
          | .Push => exact non_attribute_frame_mono hrec rest _
          | .BigNumber => exact non_attribute_frame_mono hrec rest _
          | .Hello => exact non_attribute_frame_mono hrec rest _
          | .ChunkedString => exact non_attribute_frame_mono hrec rest _
          | .EndStream => exact non_attribute_frame_mono hrec rest _

theorem frame_or_attribute_ok_mono {fuel fuel2 : Nat} {b rest : Bytes}
    {v : DecodedFrame} (h : d_parse_frame_or_attribute fuel b = .ok rest v)
    (hle : fuel ≤ fuel2) : d_parse_frame_or_attribute fuel2 b = .ok rest v :=
  (frame_or_attribute_mono fuel fuel2 hle b).ok_mono h

theorem frame_or_attribute_incomplete_anti {fuel fuel2 : Nat} {b : Bytes}
    (h : d_parse_frame_or_attribute fuel2 b = .incomplete)
    (hle : fuel ≤ fuel2) : d_parse_frame_or_attribute fuel b = .incomplete :=
  (frame_or_attribute_mono fuel fuel2 hle b).incomplete_anti h

/-- Core of the partial-input property: when a full run of the frame
decoder consumes its entire input, every proper prefix of that input
parses to `incomplete` (at the fuel `decode` would supply for it). -/
theorem parse_prefix_incomplete {B rem : Bytes} {df : DecodedFrame}
    (h : d_parse_frame_or_attribute (B.length + 1) B = .ok rem df)
    (hfull : B.length - rem.length = B.length) (k : Nat) (hk : k < B.length) :
    d_parse_frame_or_attribute ((B.take k).length + 1) (B.take k) = .incomplete := by
  obtain ⟨x, hx, hext, hpre⟩ := streamParser_frame_or_attribute (B.length + 1) B rem df h
  have hlen : B.length = x.length + rem.length := by rw [hx, List.length_append]
  have hrem : rem = [] := by
    have hz : rem.length = 0 := by omega
    exact List.eq_nil_of_length_eq_zero hz
  subst hrem
  rw [List.append_nil] at hx
  subst hx
  have hinc := hpre k hk
  refine frame_or_attribute_incomplete_anti hinc ?_
  have := List.length_take_le k B
  omega

/-- C1: for the RESP3 decoders (`complete::decode` and
`streaming::decode`), incomplete input is never reported as an error: for
every valid encoding `B` (an input either decoder parses in full) and
every `k < |B|`, decoding the prefix `B[0..k]` returns `Ok(None)` — never
a `DecodeError` and never a frame, so the caller's cursor does not
advance. -/
theorem C1_partial_input_is_incomplete (B : Bytes) (k : Nat) (hk : k < B.length) :
    (∀ df, streaming.decode B = .ok (some (df, B.length)) →
      streaming.decode (B.take k) = .ok none ∧ complete.decode (B.take k) = .ok none)
    ∧ (∀ f, complete.decode B = .ok (some (f, B.length)) →
      streaming.decode (B.take k) = .ok none ∧ complete.decode (B.take k) = .ok none) := by
  constructor
  · intro df hdec
    rw [streaming.decode] at hdec
    match hp : d_parse_frame_or_attribute (B.length + 1) B with
    | .ok rem frame =>
        rw [hp] at hdec
        simp only [Except.ok.injEq, Option.some.injEq, Prod.mk.injEq] at hdec
        obtain ⟨-, hfull⟩ := hdec
        have hinc := parse_prefix_incomplete hp hfull k hk
        constructor
        · rw [streaming.decode, hinc]
        · rw [complete.decode, hinc]
    | .incomplete => rw [hp] at hdec; exact absurd hdec (by simp)
    | .error e => rw [hp] at hdec; exact absurd hdec (by simp)
  · intro f hdec
    rw [complete.decode] at hdec
    match hp : d_parse_frame_or_attribute (B.length + 1) B with
    | .ok rem frame =>
        rw [hp] at hdec
        simp only [] at hdec
        match hic : frame.into_complete_frame with
        | some f2 =>
            rw [hic] at hdec
            simp only [Except.ok.injEq, Option.some.injEq, Prod.mk.injEq] at hdec
            obtain ⟨-, hfull⟩ := hdec
            have hinc := parse_prefix_incomplete hp hfull k hk
            constructor
            · rw [streaming.decode, hinc]
            · rw [complete.decode, hinc]
        | none => rw [hic] at hdec; exact absurd hdec (by simp)
    | .incomplete => rw [hp] at hdec; exact absurd hdec (by simp)
    | .error e => rw [hp] at hdec; exact absurd hdec (by simp)

/-- Witness for C1 at the concrete valid encoding `":48293\r\n"` and
prefix length 5. -/
theorem C1_witness :
    complete.decode [58, 52, 56, 50, 57, 51, 13, 10] =
      .ok (some (.Number 48293 none, [58, 52, 56, 50, 57, 51, 13, 10].length))
    ∧ streaming.decode (List.take 5 [58, 52, 56, 50, 57, 51, 13, 10]) = .ok none
    ∧ complete.decode (List.take 5 [58, 52, 56, 50, 57, 51, 13, 10]) = .ok none := by
  refine ⟨by rfl, ?_, ?_⟩
  · exact ((C1_partial_input_is_incomplete [58, 52, 56, 50, 57, 51, 13, 10] 5
      (by norm_num)).2 (.Number 48293 none) (by rfl)).1
  · exact ((C1_partial_input_is_incomplete [58, 52, 56, 50, 57, 51, 13, 10] 5
      (by norm_num)).2 (.Number 48293 none) (by rfl)).2

/-- C7: whenever the first frame of an input is a streaming header (so
`streaming::decode` returns it as `DecodedFrame::Streaming`),
`complete::decode` on the same input returns an error (the
`unwrap_complete_frame` failure), not a frame and not `None`. -/
theorem C7_complete_errors_on_streaming_header (input : Bytes)
    (sf : StreamedFrame) (n : Nat)
    (h : streaming.decode input = .ok (some (.Streaming sf, n))) :
    complete.decode input = .error ctx_unwrap_complete_frame := by
  rw [streaming.decode] at h
  match hp : d_parse_frame_or_attribute (input.length + 1) input with
  | .ok rem frame =>
      rw [hp] at h
      simp only [Except.ok.injEq, Option.some.injEq, Prod.mk.injEq] at h
      obtain ⟨hf, -⟩ := h
      rw [complete.decode, hp, hf]
      rfl
  | .incomplete => rw [hp] at h; exact absurd h (by simp)
  | .error e => rw [hp] at h; exact absurd h (by simp)

/-- Witness for C7 at the concrete streaming-array header `"*?\r\n"`. -/
theorem C7_witness :
    streaming.decode [42, 63, 13, 10] =
      .ok (some (.Streaming (StreamedFrame.new .Array), 4))
    ∧ complete.decode [42, 63, 13, 10] = .error ctx_unwrap_complete_frame := by
  refine ⟨by rfl, ?_⟩
  exact C7_complete_errors_on_streaming_header [42, 63, 13, 10]
    (StreamedFrame.new .Array) 4 (by rfl)

/-- C2: evaluation of the decoder at the failing input `"=3\r\nmkd:x\r\n"`
(a VerbatimString whose declared length 3 is smaller than 4). The source
computes `len - 4`, which wraps under release semantics (first conjunct),
so the decoder demands about `2^64` further bytes and reports `Ok(None)`
forever instead of the `DecodeError` the claim requires; under debug
semantics the same subtraction panics. -/
theorem C2_verbatim_short_prefix_underflows :
    usizeSub 3 4 = 2 ^ 64 - 1
    ∧ complete.decode [61, 51, 13, 10, 109, 107, 100, 58, 120, 13, 10] = .ok none
    ∧ streaming.decode [61, 51, 13, 10, 109, 107, 100, 58, 120, 13, 10] = .ok none := by
  refine ⟨by norm_num [usizeSub], by rfl, by rfl⟩

/-- C8: the HELLO handshake can never be decoded. The first conjunct is
purely about the source: `d_parse_hello` never returns a success on any
input, because `take_until("HELLO")` runs only after the tag byte was
already consumed and the byte read as the version is then always `E`.
The second conjunct evaluates the decoder at the frame
`"HELLO\x03\r\n"`: it reports incomplete input (`Ok(None)`) instead of
`Frame::Hello`. -/
theorem C8_hello_never_decodes :
    (∀ input, (d_parse_hello input).isOk = false)
    ∧ complete.decode [72, 69, 76, 76, 79, 3, 13, 10] = .ok none
    ∧ streaming.decode [72, 69, 76, 76, 79, 3, 13, 10] = .ok none :=
  ⟨d_parse_hello_never_ok, by rfl, by rfl⟩

/-! Helper lemmas evaluating the line-oriented parsers on inputs of the
shape `pre ++ CRLF ++ rest`, used to settle the remaining claims on
symbolic inputs. -/

theorem findSub_crlf_append {pre : Bytes} (h : 13 ∉ pre) (rest : Bytes) :
    findSub CRLF (pre ++ 13 :: 10 :: rest) = some pre.length := by
  refine findSub_crlf_eq_some ⟨rest, by rw [List.drop_left]⟩ ?_
  intro j hj hc
  obtain ⟨u, hu⟩ := hc
  rw [List.drop_append_of_le_length (by omega)] at hu
  match hd : pre.drop j with
  | [] =>
      have := List.length_drop j pre
      rw [hd] at this
      simp at this
      omega
  | c :: w =>
      rw [hd] at hu
      have hc13 : c = 13 := by injection hu
      subst hc13
      have hmem : (13 : Nat) ∈ pre := List.drop_subset j pre (by rw [hd]; exact List.mem_cons_self _ _)
      exact h hmem

theorem read_to_crlf_line {pre : Bytes} (h : 13 ∉ pre) (rest : Bytes) :
    d_read_to_crlf (pre ++ 13 :: 10 :: rest) = .ok rest pre := by
  rw [d_read_to_crlf, nomTakeUntil, findSub_crlf_append h, PResult.bind,
    List.drop_left, List.take_left, nomTake, if_pos (by simp), PResult.bind]
  rfl

theorem read_to_crlf_s_line {pre : Bytes} (h : 13 ∉ pre)
    (hutf : isValidUtf8 pre = true) (rest : Bytes) :
    d_read_to_crlf_s (pre ++ 13 :: 10 :: rest) = .ok rest pre := by
  rw [d_read_to_crlf_s, mapRes, read_to_crlf_line h, PResult.bind, hutf]
  rfl

theorem read_to_crlf_s_line_bad_utf8 {pre : Bytes} (h : 13 ∉ pre)
    (hutf : isValidUtf8 pre = false) (rest : Bytes) :
    d_read_to_crlf_s (pre ++ 13 :: 10 :: rest) = .error ctx_from_utf8 := by
  rw [d_read_to_crlf_s, mapRes, read_to_crlf_line h, PResult.bind, hutf]
  rfl

theorem isValidUtf8_of_ascii {l : Bytes} (h : ∀ c ∈ l, c ≤ 127) :
    isValidUtf8 l = true := by
  induction l with
  | nil => rfl
  | cons b r ih =>
      have hb : b ≤ 127 := h b (List.mem_cons_self _ _)
      rw [isValidUtf8, if_pos hb]
      exact ih fun c hc => h c (List.mem_cons_of_mem _ hc)

theorem parseDigitsLoop_mem {l : Bytes} {acc n : Nat}
    (h : parseDigitsLoop l acc = some n) : ∀ c ∈ l, isDigit c = true := by
  induction l generalizing acc with
  | nil => intro c hc; exact absurd hc (by simp)
  | cons b r ih =>
      rw [parseDigitsLoop] at h
      by_cases hb : isDigit b = true
      · rw [if_pos hb] at h
        intro c hc
        rcases List.mem_cons.1 hc with hc | hc
        · subst hc; exact hb
        · exact ih h c hc
      · rw [if_neg hb] at h
        exact absurd h (by simp)

theorem parseDigits_mem {l : Bytes} {n : Nat} (h : parseDigits l = some n) :
    ∀ c ∈ l, 48 ≤ c ∧ c ≤ 57 := by
  have hmem : ∀ c ∈ l, isDigit c = true := by
    cases l with
    | nil => intro c hc; exact absurd hc (by simp)
    | cons b r =>
        simp only [parseDigits] at h
        exact parseDigitsLoop_mem h
  intro c hc
  have := hmem c hc
  rw [isDigit, Bool.and_eq_true, decide_eq_true_eq, decide_eq_true_eq] at this
  exact this

theorem signed_digits_clean {l : Bytes} (sign : Option Nat)
    (hsign : sign = none ∨ sign = some 43 ∨ sign = some 45)
    (hl : ∀ c ∈ l, 48 ≤ c ∧ c ≤ 57) :
    13 ∉ sign.toList ++ l ∧ isValidUtf8 (sign.toList ++ l) = true := by
  have hall : ∀ c ∈ sign.toList ++ l, c ≤ 127 ∧ c ≠ 13 := by
    intro c hc
    rcases List.mem_append.1 hc with hc | hc
    · rcases hsign with hs | hs | hs <;> subst hs <;> simp at hc <;> omega
    · have := hl c hc
      omega
  exact ⟨fun hmem => (hall 13 hmem).2 rfl,
    isValidUtf8_of_ascii fun c hc => (hall c hc).1⟩

theorem head_sign_split {ds : Bytes} {s : Nat} (h : ds.head? = some s) :
    ds = s :: ds.tail := by
  cases ds with
  | nil => exact absurd h (by simp)
  | cons b r =>
      have hb : b = s := by
        rw [List.head?_cons, Option.some.injEq] at h
        exact h
      subst hb
      rfl

theorem to_usize_clean {ds : Bytes} {n : Nat} (h : to_usize ds = some n) :
    13 ∉ ds ∧ isValidUtf8 ds = true := by
  rw [to_usize, rustParseUsize] at h
  simp only [Option.bind_eq_some] at h
  obtain ⟨m, hm, -⟩ := h
  by_cases h43 : ds.head? = some 43
  · rw [if_pos h43] at hm
    have hds : ds = 43 :: ds.tail := head_sign_split h43
    rw [hds]
    have := signed_digits_clean (some 43) (by simp) (parseDigits_mem hm)
    simpa using this
  · rw [if_neg h43] at hm
    have := signed_digits_clean none (by simp) (parseDigits_mem hm)
    simpa using this

theorem rustParseIntBounded_clean {lo hi : Int} {ds : Bytes} {z : Int}
    (h : rustParseIntBounded lo hi ds = some z) :
    13 ∉ ds ∧ isValidUtf8 ds = true := by
  rw [rustParseIntBounded] at h
  by_cases h43 : ds.head? = some 43
  · rw [if_pos h43] at h
    simp only [Option.bind_eq_some] at h
    obtain ⟨m, hm, -⟩ := h
    rw [head_sign_split h43]
    have := signed_digits_clean (some 43) (by simp) (parseDigits_mem hm)
    simpa using this
  · rw [if_neg h43] at h
    by_cases h45 : ds.head? = some 45
    · rw [if_pos h45] at h
      simp only [Option.bind_eq_some] at h
      obtain ⟨m, hm, -⟩ := h
      rw [head_sign_split h45]
      have := signed_digits_clean (some 45) (by simp) (parseDigits_mem hm)
      simpa using this
    · rw [if_neg h45] at h
      simp only [Option.bind_eq_some] at h
      obtain ⟨m, hm, -⟩ := h
      have := signed_digits_clean none (by simp) (parseDigits_mem hm)
      simpa using this

theorem to_isize_clean {ds : Bytes} {z : Int} (h : to_isize ds = some z) :
    13 ∉ ds ∧ isValidUtf8 ds = true := by
  rw [to_isize] at h
  by_cases hq : ds = [63]
  · subst hq
    exact ⟨by simp, by rfl⟩
  · rw [if_neg hq] at h
    exact rustParseIntBounded_clean h

theorem read_prefix_len_line {ds : Bytes} {n : Nat} (h : to_usize ds = some n)
    (rest : Bytes) : d_read_prefix_len (ds ++ 13 :: 10 :: rest) = .ok rest n := by
  obtain ⟨h13, hutf⟩ := to_usize_clean h
  rw [d_read_prefix_len, mapRes, read_to_crlf_s_line h13 hutf, PResult.bind, h]

theorem read_prefix_len_signed_line {ds : Bytes} {z : Int} (h : to_isize ds = some z)
    (rest : Bytes) : d_read_prefix_len_signed (ds ++ 13 :: 10 :: rest) = .ok rest z := by
  obtain ⟨h13, hutf⟩ := to_isize_clean h
  rw [d_read_prefix_len_signed, mapRes, read_to_crlf_s_line h13 hutf, PResult.bind, h]

theorem nomTake_exact {l : Bytes} {n : Nat} (h : l.length = n) (t : Bytes) :
    nomTake n (l ++ t) = .ok t l := by
  rw [nomTake, if_pos (by rw [List.length_append]; omega), List.take_left' h,
    List.drop_left' h]

theorem to_usize_le {ds : Bytes} {n : Nat} (h : to_usize ds = some n) :
    n ≤ USIZE_MAX := by
  rw [to_usize, rustParseUsize] at h
  simp only [Option.bind_eq_some] at h
  obtain ⟨m, -, hif⟩ := h
  by_cases hle : m ≤ USIZE_MAX
  · rw [if_pos hle, Option.some.injEq] at hif
    omega
  · rw [if_neg hle] at hif
    exact absurd hif (by simp)

/-- One unfolding step of the decoder on a nonempty input: read the kind
byte, then dispatch. -/
theorem parse_cons_step (kb : Nat) (rest : Bytes) (fuel : Nat) :
    d_parse_frame_or_attribute (fuel + 1) (kb :: rest) =
      match FrameKind.from_byte kb with
      | some kind =>
          match kind with
          | .Attribute =>
              d_parse_attribute_and_frame (d_parse_frame_or_attribute fuel) rest
          | _ => d_parse_non_attribute_frame (d_parse_frame_or_attribute fuel) rest kind
      | none => .error ctx_frame_type := by
  match hfb : FrameKind.from_byte kb with
  | none => simp only [d_parse_frame_or_attribute, d_frame_type, be_u8, PResult.bind, hfb]
  | some k => simp only [d_parse_frame_or_attribute, d_frame_type, be_u8, PResult.bind, hfb]

/-- A `?` (or `-1`) length prefix makes `d_check_streaming` return the
streaming header after the prefix line. -/
theorem check_streaming_header {ds : Bytes} (h : to_isize ds = some (-1))
    (rec : Bytes → PResult DecodedFrame) (tail : Bytes) (kind : FrameKind) :
    d_check_streaming rec (ds ++ 13 :: 10 :: tail) kind =
      .ok tail (.Streaming (StreamedFrame.new kind)) := by
  rw [d_check_streaming, read_prefix_len_signed_line h, PResult.bind, if_pos rfl]

/-- C6: a `?` length prefix on an Array, Set, Map, or BlobString frame
makes `streaming::decode` return `DecodedFrame::Streaming` with a header
of the corresponding kind, consuming exactly the 4 prefix-line bytes and
leaving every subsequent byte unconsumed. -/
theorem C6_streaming_question_prefix (kb : Nat) (kind : FrameKind) (tail : Bytes)
    (hk : (kb, kind) = (42, FrameKind.Array) ∨ (kb, kind) = (126, FrameKind.Set) ∨
      (kb, kind) = (37, FrameKind.Map) ∨ (kb, kind) = (36, FrameKind.BlobString)) :
    streaming.decode (kb :: 63 :: 13 :: 10 :: tail) =
      .ok (some (.Streaming (StreamedFrame.new kind), 4)) := by
  have hq : to_isize [63] = some (-1) := rfl
  have harith : List.length tail + 1 + 1 + 1 + 1 - List.length tail = 4 := by omega
  rcases hk with h | h | h | h <;>
    (rw [Prod.mk.injEq] at h
     obtain ⟨h1, h2⟩ := h
     subst h1
     subst h2
     rw [streaming.decode, parse_cons_step]) <;>
    simp only [FrameKind.from_byte] <;>
    norm_num <;>
    (have hcs := check_streaming_header hq
      (d_parse_frame_or_attribute (List.length tail + 1 + 1 + 1 + 1)) tail
     rw [show ([63] ++ 13 :: 10 :: tail : Bytes) = 63 :: 13 :: 10 :: tail from rfl] at hcs) <;>
    rw [d_parse_non_attribute_frame, hcs] <;>
    simp only [] <;>
    rw [harith]

/-- Witness for C6 at the concrete header `"~?\r\n"` (streamed set). -/
theorem C6_witness :
    streaming.decode [126, 63, 13, 10] =
      .ok (some (.Streaming (StreamedFrame.new .Set), 4)) :=
  C6_streaming_question_prefix 126 .Set [] (Or.inr (Or.inl rfl))

/-- C10: the length parser maps the literal token `-1` to the same internal
value as `?`, so `*-1\r\n`, `~-1\r\n`, `%-1\r\n` and `$-1\r\n` make
`streaming::decode` return exactly the streaming header of the
corresponding kind (consuming 5 bytes) — not a Null frame and not a
`DecodeError` — while every other negative length is rejected by
`isize_to_usize` with a `DecodeError`. -/
theorem C10_minus_one_streams (kb : Nat) (kind : FrameKind) (tail ds : Bytes) (z : Int)
    (hk : (kb, kind) = (42, FrameKind.Array) ∨ (kb, kind) = (126, FrameKind.Set) ∨
      (kb, kind) = (37, FrameKind.Map) ∨ (kb, kind) = (36, FrameKind.BlobString)) :
    streaming.decode (kb :: 45 :: 49 :: 13 :: 10 :: tail) =
      .ok (some (.Streaming (StreamedFrame.new kind), 5))
    ∧ (to_isize ds = some z → z < 0 → z ≠ -1 →
        streaming.decode (kb :: (ds ++ 13 :: 10 :: tail)) = .error ctx_isize_to_usize) := by
  constructor
  · have hm1 : to_isize [45, 49] = some (-1) := rfl
    have harith : List.length tail + 1 + 1 + 1 + 1 + 1 - List.length tail = 5 := by omega
    rcases hk with h | h | h | h <;>
      (rw [Prod.mk.injEq] at h
       obtain ⟨h1, h2⟩ := h
       subst h1
       subst h2
       rw [streaming.decode, parse_cons_step]) <;>
      simp only [FrameKind.from_byte] <;>
      norm_num <;>
      (have hcs := check_streaming_header hm1
        (d_parse_frame_or_attribute (List.length tail + 1 + 1 + 1 + 1 + 1)) tail
       rw [show ([45, 49] ++ 13 :: 10 :: tail : Bytes) = 45 :: 49 :: 13 :: 10 :: tail
         from rfl] at hcs) <;>
      rw [d_parse_non_attribute_frame, hcs] <;>
      simp only [] <;>
      rw [harith]
  · intro hz hneg hz1
    have hnone : isize_to_usize z = none := by rw [isize_to_usize, if_pos hneg]
    rcases hk with h | h | h | h <;>
      (rw [Prod.mk.injEq] at h
       obtain ⟨h1, h2⟩ := h
       subst h1
       subst h2
       rw [streaming.decode, parse_cons_step]) <;>
      simp only [FrameKind.from_byte] <;>
      norm_num <;>
      rw [d_parse_non_attribute_frame, d_check_streaming,
        read_prefix_len_signed_line hz, PResult.bind, if_neg hz1, hnone]

/-- Witness for C10 at `"*-1\r\nX"` (streams) and `"*-2\r\nX"` (errors). -/
theorem C10_witness :
    streaming.decode [42, 45, 49, 13, 10, 88] =
      .ok (some (.Streaming (StreamedFrame.new .Array), 5))
    ∧ streaming.decode [42, 45, 50, 13, 10, 88] = .error ctx_isize_to_usize := by
  have h := C10_minus_one_streams 42 .Array [88] [45, 50] (-2) (Or.inl rfl)
  exact ⟨h.1, h.2 (by rfl) (by norm_num) (by norm_num)⟩

/-- C9: for a VerbatimString with declared length `n ≥ 4`, the decoded
payload is exactly `n - 4` bytes (the prefix counts the 3-byte format tag
plus the separator), and the whole frame consumes
`1 + |ds| + 2 + 4 + |p| + 2` bytes. -/
theorem C9_verbatim_payload_length (ds p : Bytes) (n : Nat)
    (hds : to_usize ds = some n) (hn : 4 ≤ n) (hp : p.length = n - 4) :
    complete.decode
        (61 :: (ds ++ 13 :: 10 :: (109 :: 107 :: 100 :: 58 :: (p ++ 13 :: 10 :: [])))) =
      .ok (some (.VerbatimString p .Markdown none, ds.length + p.length + 9)) := by
  have hle := to_usize_le hds
  have husize : usizeSub n 4 = p.length := by
    rw [usizeSub]
    unfold USIZE_MAX at hle
    omega
  have hvs : d_parse_verbatimstring
      (ds ++ 13 :: 10 :: (109 :: 107 :: 100 :: 58 :: (p ++ 13 :: 10 :: []))) =
      .ok [] (.VerbatimString p .Markdown none) := by
    rw [d_parse_verbatimstring, read_prefix_len_line hds, PResult.bind,
      show (109 :: 107 :: 100 :: 58 :: (p ++ 13 :: 10 :: []) : Bytes) =
        [109, 107, 100] ++ ([58] ++ (p ++ 13 :: 10 :: [])) from rfl,
      nomTake_exact (show ([109, 107, 100] : Bytes).length = 3 from rfl), PResult.bind,
      nomTake_exact (show ([58] : Bytes).length = 1 from rfl), PResult.bind, mapRes,
      PResult.bind, if_pos (show isValidUtf8 [109, 107, 100] = true from rfl)]
    rw [PResult.bind]
    rw [show to_verbatimstring_format [109, 107, 100] = some VerbatimStringFormat.Markdown
      from rfl]
    simp only []
    rw [husize, nomTake_exact rfl, PResult.bind]
    rfl
  rw [complete.decode, parse_cons_step]
  simp only [FrameKind.from_byte]
  norm_num
  rw [d_parse_non_attribute_frame, hvs, PResult.bind]
  simp only [map_complete_frame, DecodedFrame.into_complete_frame]
  congr 3

/-- Witness for C9 at the spec's concrete example
`"=15\r\nmkd:Some string\r\n"`. -/
theorem C9_witness :
    complete.decode [61, 49, 53, 13, 10, 109, 107, 100, 58, 83, 111, 109, 101, 32,
        115, 116, 114, 105, 110, 103, 13, 10] =
      .ok (some (.VerbatimString [83, 111, 109, 101, 32, 115, 116, 114, 105, 110, 103]
        .Markdown none, 22)) := by
  have h := C9_verbatim_payload_length [49, 53]
    [83, 111, 109, 101, 32, 115, 116, 114, 105, 110, 103] 15 (by rfl) (by norm_num)
    (by rfl)
  simpa using h

/-- C4 counterexample: decoding `",nan\r\n"` succeeds with a NaN double
(it is not a `DecodeError`), because `to_f64` delegates to Rust's float
parsing with no `nan` check — contradicting the claim that the token
`nan` fails. -/
theorem C4_counterexample_nan_decodes :
    complete.decode [44, 110, 97, 110, 13, 10] = .ok (some (.Double .nan none, 6)) := by
  rfl

/-- C4 amended: decoding `,<token>\r\n` succeeds for every token Rust's
float grammar accepts — `inf`, `-inf`, decimals, and also `nan` — and
returns a `DecodeError` for every token outside the grammar. -/
theorem C4_amended_double_tokens (tok : Bytes) (h13 : 13 ∉ tok) :
    (∀ fv, to_f64 tok = some fv → isValidUtf8 tok = true →
      complete.decode (44 :: (tok ++ 13 :: 10 :: [])) =
        .ok (some (.Double fv none, tok.length + 3)))
    ∧ (to_f64 tok = none →
      ∃ e, complete.decode (44 :: (tok ++ 13 :: 10 :: [])) = .error e) := by
  constructor
  · intro fv hfv hutf
    have hd : d_parse_double (tok ++ 13 :: 10 :: []) = .ok [] (.Double fv none) := by
      rw [d_parse_double, mapRes, read_to_crlf_s_line h13 hutf, PResult.bind, hfv]
      rfl
    rw [complete.decode, parse_cons_step]
    simp only [FrameKind.from_byte]
    norm_num
    rw [d_parse_non_attribute_frame, hd, PResult.bind]
    simp only [map_complete_frame, DecodedFrame.into_complete_frame]
    congr 3
  · intro hfv
    by_cases hutf : isValidUtf8 tok = true
    · refine ⟨ctx_to_f64, ?_⟩
      have hd : d_parse_double (tok ++ 13 :: 10 :: []) = .error ctx_to_f64 := by
        rw [d_parse_double, mapRes, read_to_crlf_s_line h13 hutf, PResult.bind, hfv]
        rfl
      rw [complete.decode, parse_cons_step]
      simp only [FrameKind.from_byte]
      norm_num
      rw [d_parse_non_attribute_frame, hd]
      rfl
    · refine ⟨ctx_from_utf8, ?_⟩
      have hutf2 : isValidUtf8 tok = false := by
        cases hv : isValidUtf8 tok
        · rfl
        · exact absurd hv hutf
      have hd : d_parse_double (tok ++ 13 :: 10 :: []) = .error ctx_from_utf8 := by
        rw [d_parse_double, mapRes, read_to_crlf_s_line_bad_utf8 h13 hutf2, PResult.bind]
        rfl
      rw [complete.decode, parse_cons_step]
      simp only [FrameKind.from_byte]
      norm_num
      rw [d_parse_non_attribute_frame, hd]
      rfl

/-- Witness for C4 at the tokens `inf` (succeeds), `-inf` (succeeds), and
`foo` (fails). -/
theorem C4_witness :
    complete.decode [44, 105, 110, 102, 13, 10] = .ok (some (.Double .inf none, 6))
    ∧ complete.decode [44, 45, 105, 110, 102, 13, 10] =
        .ok (some (.Double .negInf none, 7))
    ∧ (∃ e, complete.decode [44, 102, 111, 111, 13, 10] = .error e) := by
  refine ⟨?_, ?_, ?_⟩
  · have h := (C4_amended_double_tokens [105, 110, 102] (by decide)).1 .inf
      (by rfl) (by rfl)
    simpa using h
  · have h := (C4_amended_double_tokens [45, 105, 110, 102] (by decide)).1 .negInf
      (by rfl) (by rfl)
    simpa using h
  · exact (C4_amended_double_tokens [102, 111, 111] (by decide)).2 (by rfl)

/-- Spec-side reference pairing of a flat child list into wire-order
(key, value) pairs: follows the spec's words for comparison against the
source's `to_map`. -/
def specWirePairs : List Frame → FrameMap
  | k :: v :: rest => (k, v) :: specWirePairs rest
  | _ => []

/-- Flattening of a pair list back into a child list, key first. -/
def flatPairs : FrameMap → List Frame
  | [] => []
  | (k, v) :: rest => k :: v :: flatPairs rest

/-- Flattening of a pair list value first (the order `Vec::pop` sees). -/
def flatRev : FrameMap → List Frame
  | [] => []
  | (k, v) :: rest => v :: k :: flatRev rest

theorem flatPairs_specWirePairs :
    ∀ l : List Frame, l.length % 2 = 0 → flatPairs (specWirePairs l) = l
  | [], _ => rfl
  | [k], h => by simp at h
  | k :: v :: rest, h => by
      have h2 : rest.length % 2 = 0 := by
        simp only [List.length_cons] at h
        omega
      rw [specWirePairs, flatPairs, flatPairs_specWirePairs rest h2]

theorem flatRev_append : ∀ a b : FrameMap, flatRev (a ++ b) = flatRev a ++ flatRev b
  | [], b => rfl
  | (k, v) :: rest, b => by
      rw [List.cons_append, flatRev, flatRev, flatRev_append rest b]
      rfl

theorem reverse_flatPairs : ∀ q : FrameMap, (flatPairs q).reverse = flatRev q.reverse
  | [] => rfl
  | (k, v) :: rest => by
      rw [flatPairs, List.reverse_cons, List.reverse_cons, reverse_flatPairs rest,
        List.reverse_cons, flatRev_append, List.append_assoc]
      rfl

theorem mapInsert_append {k v : Frame} :
    ∀ acc : FrameMap, (∀ kv ∈ acc, frameBeq kv.1 k = false) →
      mapInsert acc k v = acc ++ [(k, v)]
  | [], _ => rfl
  | (k2, v2) :: rest, h => by
      rw [mapInsert, show frameBeq k2 k = false from h (k2, v2) (List.mem_cons_self _ _)]
      rw [if_neg (by simp), mapInsert_append rest
        (fun kv hkv => h kv (List.mem_cons_of_mem _ hkv))]
      rfl

theorem toMapRevLoop_flatRev :
    ∀ (r : FrameMap) (acc : FrameMap),
      (∀ kv ∈ r, ∀ kv2 ∈ acc, frameBeq kv2.1 kv.1 = false) →
      r.Pairwise (fun a b => frameBeq a.1 b.1 = false) →
      toMapRevLoop (flatRev r) acc = acc ++ r
  | [], acc, _, _ => by
      rw [flatRev, List.append_nil]
      rfl
  | (k, v) :: r2, acc, hdisj, hpw => by
      rw [flatRev, toMapRevLoop, mapInsert_append acc
        (fun kv hkv => hdisj (k, v) (List.mem_cons_self _ _) kv hkv)]
      rw [List.pairwise_cons] at hpw
      have hdisj2 : ∀ kv ∈ r2, ∀ kv2 ∈ acc ++ [(k, v)], frameBeq kv2.1 kv.1 = false := by
        intro kv hkv kv2 hkv2
        rcases List.mem_append.1 hkv2 with h2 | h2
        · exact hdisj kv (List.mem_cons_of_mem _ hkv) kv2 h2
        · have : kv2 = (k, v) := by simpa using h2
          subst this
          exact hpw.1 kv hkv
      rw [toMapRevLoop_flatRev r2 (acc ++ [(k, v)]) hdisj2 hpw.2, List.append_assoc]
      rfl

/-- C3 counterexample: decoding the map `%2\r\n+a\r\n:1\r\n+b\r\n:2\r\n`
stores the pairs in the container in the order (b, 2), (a, 1) — the
reverse of the wire order (a, 1), (b, 2) — because `to_map` pops the
children off the end of the vector. Each key is still paired with its own
value. -/
theorem C3_counterexample_map_order_reversed :
    complete.decode [37, 50, 13, 10, 43, 97, 13, 10, 58, 49, 13, 10, 43, 98, 13, 10,
        58, 50, 13, 10] =
      .ok (some (.Map [(.SimpleString [98] none, .Number 2 none),
        (.SimpleString [97] none, .Number 1 none)] none, 20))
    ∧ ([(.SimpleString [98] none, .Number 2 none),
        (.SimpleString [97] none, .Number 1 none)] : FrameMap) ≠
      [(.SimpleString [97] none, .Number 1 none),
        (.SimpleString [98] none, .Number 2 none)] := by
  refine ⟨by rfl, ?_⟩
  intro h
  simp at h

/-- C3 amended: with the insertion-ordered container, a decoded Map holds
the wire's (key, value) pairs in reverse wire order (each key still bound
to the value that followed it on the wire): `to_map` over an even-length
child list with pairwise-distinct keys produces exactly the reversed
wire-pair list. -/
theorem C3_amended_map_pairs_reversed (children : List Frame)
    (heven : children.length % 2 = 0)
    (hkeys : (specWirePairs children).Pairwise
      (fun a b => frameBeq a.1 b.1 = false ∧ frameBeq b.1 a.1 = false)) :
    to_map children = some ((specWirePairs children).reverse) := by
  rw [to_map, if_neg (by omega)]
  have hrev : children.reverse = flatRev (specWirePairs children).reverse := by
    conv_lhs => rw [← flatPairs_specWirePairs children heven]
    exact reverse_flatPairs _
  have hpw : ((specWirePairs children).reverse).Pairwise
      (fun a b => frameBeq a.1 b.1 = false) := by
    rw [List.pairwise_reverse]
    exact hkeys.imp (fun h => h.2)
  rw [hrev, toMapRevLoop_flatRev _ [] (by simp) hpw, List.nil_append]

/-- Witness for C3 amended at the two-pair map of the counterexample. -/
theorem C3_witness :
    to_map [.SimpleString [97] none, .Number 1 none, .SimpleString [98] none,
        .Number 2 none] =
      some [(.SimpleString [98] none, .Number 2 none),
        (.SimpleString [97] none, .Number 1 none)] := by
  have h := C3_amended_map_pairs_reversed
    [.SimpleString [97] none, .Number 1 none, .SimpleString [98] none, .Number 2 none]
    (by rfl) (by decide)
  simpa using h

/-- A full-input streaming decode of a nonempty buffer comes from a parse
that consumed everything. -/
theorem streaming_decode_full {b : Bytes} {df : DecodedFrame}
    (h : streaming.decode b = .ok (some (df, b.length))) (hne : b ≠ []) :
    d_parse_frame_or_attribute (b.length + 1) b = .ok [] df := by
  rw [streaming.decode] at h
  match hp : d_parse_frame_or_attribute (b.length + 1) b with
  | .ok rem frame =>
      rw [hp] at h
      simp only [Except.ok.injEq, Option.some.injEq, Prod.mk.injEq] at h
      obtain ⟨hf, hlen⟩ := h
      obtain ⟨x, hx, -, -⟩ := streamParser_frame_or_attribute _ b rem frame hp
      have hxl : b.length = x.length + rem.length := by rw [hx, List.length_append]
      have hb1 : 1 ≤ b.length := by
        cases b
        · exact absurd rfl hne
        · simp
      have hrem : rem = [] := List.eq_nil_of_length_eq_zero (by omega)
      subst hrem
      rw [hf]
  | .incomplete => rw [hp] at h; exact absurd h (by simp)
  | .error e => rw [hp] at h; exact absurd h (by simp)

/-- A successful full parse of a non-attribute frame factors through
`d_parse_non_attribute_frame` after the kind byte. -/
theorem parse_ok_nonattr {kb : Nat} {b2 : Bytes} {kind : FrameKind} {df : DecodedFrame}
    (hb : d_parse_frame_or_attribute ((kb :: b2 : Bytes).length + 1) (kb :: b2) =
      .ok [] df)
    (hkind : FrameKind.from_byte kb = some kind) (hna : kind ≠ .Attribute) :
    d_parse_non_attribute_frame (d_parse_frame_or_attribute ((kb :: b2 : Bytes).length))
      b2 kind = .ok [] df := by
  rw [parse_cons_step, hkind] at hb
  cases kind <;> first | exact absurd rfl hna | exact hb

/-- C5 counterexample: the attribute section `|1\r\n+a\r\n:1\r\n` followed by
the well-formed Null frame `_\r\n` decodes to a DecodeError (context
`attach_attributes`) in both decoders — not to the Null frame carrying the
attribute map, as the claim requires for every following frame. -/
theorem C5_counterexample_null_follower :
    complete.decode [124, 49, 13, 10, 43, 97, 13, 10, 58, 49, 13, 10, 95, 13, 10] =
      .error ctx_attach_attributes
    ∧ streaming.decode [124, 49, 13, 10, 43, 97, 13, 10, 58, 49, 13, 10, 95, 13, 10] =
      .error ctx_attach_attributes := ⟨rfl, rfl⟩

/-- Under a well-formed attribute section `a` and a follower `b` that
decodes completely to a non-attribute frame, the combined parse of
`|a ++ b` reduces to the attribute-attachment step: success exactly when
`attach_attributes` succeeds, the `attach_attributes` error otherwise. -/
theorem attribute_prefix_parse {a b : Bytes} {attrs : Attributes}
    {df : DecodedFrame} {kb : Nat}
    (h1 : d_parse_attribute (d_parse_frame_or_attribute (a.length + 1)) a =
      .ok [] attrs)
    (h2 : streaming.decode b = .ok (some (df, b.length)))
    (hkb : b.head? = some kb)
    (hna : FrameKind.from_byte kb ≠ some FrameKind.Attribute) :
    d_parse_frame_or_attribute ((124 :: (a ++ b) : Bytes).length + 1)
      (124 :: (a ++ b)) =
      match attach_attributes attrs df with
      | some df2 => .ok [] df2
      | none => .error ctx_attach_attributes := by
  have hbne : b ≠ [] := by
    intro hb0
    rw [hb0] at hkb
    exact absurd hkb (by simp)
  have hbsplit : b = kb :: b.tail := head_sign_split hkb
  have hkind : ∃ kind, FrameKind.from_byte kb = some kind ∧ kind ≠ .Attribute := by
    have hb := streaming_decode_full h2 hbne
    rw [hbsplit, parse_cons_step] at hb
    match hfb : FrameKind.from_byte kb with
    | none => rw [hfb] at hb; exact absurd hb (by simp)
    | some kind =>
        refine ⟨kind, rfl, ?_⟩
        intro hk
        exact hna (by rw [hfb, hk])
  obtain ⟨kind, hfb, hkna⟩ := hkind
  have hb : d_parse_frame_or_attribute (b.length + 1) b = .ok [] df :=
    streaming_decode_full h2 hbne
  have hnon : d_parse_non_attribute_frame
      (d_parse_frame_or_attribute ((kb :: b.tail : Bytes).length)) b.tail kind =
      .ok [] df := by
    refine parse_ok_nonattr ?_ hfb hkna
    rw [← hbsplit]
    exact hb
  have hL : (124 :: (a ++ b) : Bytes).length = a.length + b.length + 1 := by
    simp
  have hrecA : ∀ x, PLe (d_parse_frame_or_attribute (a.length + 1) x)
      (d_parse_frame_or_attribute ((124 :: (a ++ b) : Bytes).length) x) := by
    intro x
    refine frame_or_attribute_mono _ _ ?_ x
    rw [hL]
    omega
  have hrecB : ∀ x, PLe (d_parse_frame_or_attribute ((kb :: b.tail : Bytes).length) x)
      (d_parse_frame_or_attribute ((124 :: (a ++ b) : Bytes).length) x) := by
    intro x
    refine frame_or_attribute_mono _ _ ?_ x
    rw [hL, ← hbsplit]
    omega
  have hattr_ab : d_parse_attribute
      (d_parse_frame_or_attribute ((124 :: (a ++ b) : Bytes).length)) (a ++ b) =
      .ok b attrs := by
    obtain ⟨x, hx, hext, -⟩ := streamParser_attribute
      (streamParser_frame_or_attribute (a.length + 1)) a [] attrs h1
    rw [List.append_nil] at hx
    subst hx
    exact (parse_attribute_mono hrecA (a ++ b)).ok_mono (hext b)
  have hnonL : d_parse_non_attribute_frame
      (d_parse_frame_or_attribute ((124 :: (a ++ b) : Bytes).length)) b.tail kind =
      .ok [] df :=
    (non_attribute_frame_mono hrecB b.tail kind).ok_mono hnon
  have hft : d_frame_type b = .ok b.tail kind := by
    rw [hbsplit, d_frame_type]
    simp only [be_u8, PResult.bind, hfb]
    rfl
  have hfb124 : FrameKind.from_byte 124 = some FrameKind.Attribute := rfl
  simp only [parse_cons_step, hfb124, d_parse_attribute_and_frame, hattr_ab,
    PResult.bind, hft, hnonL]

/-- C5: attribute transparency of the decoder. For a well-formed attribute
section `a` (as parsed by `d_parse_attribute`) followed by a buffer `b`
that decodes completely to a non-attribute frame: if the frame can carry
attributes (`add_attributes` succeeds), decoding `|a ++ b` yields that
frame with the attribute map attached, consuming the whole input, so no
Attribute frame is a top-level result; if the frame cannot carry
attributes (`add_attributes` fails — the Null, ChunkedString and
EndStream followers), decoding is the `attach_attributes` `DecodeError`.
A nested attribute frame is the `parse_non_attribute_frame` `DecodeError`,
and a HELLO follower never completes: the decoder reports incomplete
(`Ok(None)`), since `d_parse_hello` never succeeds. -/
theorem C5_attribute_transparency :
    (∀ a b attrs df kb,
      d_parse_attribute (d_parse_frame_or_attribute (a.length + 1)) a = .ok [] attrs →
      streaming.decode b = .ok (some (df, b.length)) →
      b.head? = some kb →
      FrameKind.from_byte kb ≠ some FrameKind.Attribute →
      (∀ df2, DecodedFrame.add_attributes df attrs = some df2 →
        streaming.decode (124 :: (a ++ b)) = .ok (some (df2, 1 + a.length + b.length))
        ∧ ∀ f, df2 = .Complete f →
          complete.decode (124 :: (a ++ b)) = .ok (some (f, 1 + a.length + b.length)))
      ∧ (DecodedFrame.add_attributes df attrs = none →
        streaming.decode (124 :: (a ++ b)) = .error ctx_attach_attributes
        ∧ complete.decode (124 :: (a ++ b)) = .error ctx_attach_attributes))
    ∧ complete.decode [124, 49, 13, 10, 43, 97, 13, 10, 58, 49, 13, 10, 124, 49, 13,
        10, 43, 98, 13, 10, 58, 50, 13, 10, 58, 51, 13, 10] =
        .error ctx_parse_non_attribute_frame
    ∧ streaming.decode [124, 49, 13, 10, 43, 97, 13, 10, 58, 49, 13, 10,
        72, 69, 76, 76, 79, 3, 13, 10] = .ok none
    ∧ complete.decode [124, 49, 13, 10, 43, 97, 13, 10, 58, 49, 13, 10,
        72, 69, 76, 76, 79, 3, 13, 10] = .ok none := by
  refine ⟨?_, by rfl, by rfl, by rfl⟩
  intro a b attrs df kb h1 h2 hkb hna
  have hparse := attribute_prefix_parse h1 h2 hkb hna
  have hcons : (124 :: (a ++ b) : Bytes).length - List.length ([] : Bytes) =
      1 + a.length + b.length := by
    simp only [List.length_cons, List.length_append, List.length_nil, Nat.sub_zero]
    omega
  constructor
  · intro df2 h5
    have h5a : attach_attributes attrs df = some df2 := h5
    have hp2 : d_parse_frame_or_attribute ((124 :: (a ++ b) : Bytes).length + 1)
        (124 :: (a ++ b)) = .ok [] df2 := by
      rw [hparse, h5a]
    constructor
    · rw [streaming.decode, hp2]
      simp only []
      rw [hcons]
    · intro f hdf2
      rw [complete.decode, hp2]
      simp only []
      rw [hdf2]
      simp only [DecodedFrame.into_complete_frame]
      rw [hcons]
  · intro h5
    have h5a : attach_attributes attrs df = none := h5
    have hp2 : d_parse_frame_or_attribute ((124 :: (a ++ b) : Bytes).length + 1)
        (124 :: (a ++ b)) = .error ctx_attach_attributes := by
      rw [hparse, h5a]
    constructor
    · rw [streaming.decode, hp2]
    · rw [complete.decode, hp2]

/-- Witness for C5: the attribute section `"1\r\n+k\r\n:2\r\n"` followed by
the Number frame `":5\r\n"` attaches and consumes 16 bytes, and the
attribute section `"1\r\n+a\r\n:1\r\n"` followed by the Null frame
`"_\r\n"` is the `attach_attributes` error. -/
theorem C5_witness :
    (streaming.decode [124, 49, 13, 10, 43, 107, 13, 10, 58, 50, 13, 10, 58, 53, 13, 10] =
      .ok (some (.Complete (.Number 5
        (some [(.SimpleString [107] none, .Number 2 none)])), 16))
    ∧ complete.decode [124, 49, 13, 10, 43, 107, 13, 10, 58, 50, 13, 10, 58, 53, 13, 10] =
      .ok (some (.Number 5 (some [(.SimpleString [107] none, .Number 2 none)]), 16)))
    ∧ streaming.decode [124, 49, 13, 10, 43, 97, 13, 10, 58, 49, 13, 10, 95, 13, 10] =
      .error ctx_attach_attributes
    ∧ complete.decode [124, 49, 13, 10, 43, 97, 13, 10, 58, 49, 13, 10, 95, 13, 10] =
      .error ctx_attach_attributes := by
  have h1 := ((C5_attribute_transparency.1
    [49, 13, 10, 43, 107, 13, 10, 58, 50, 13, 10] [58, 53, 13, 10]
    [(.SimpleString [107] none, .Number 2 none)]
    (.Complete (.Number 5 none))
    58 (by rfl) (by rfl) (by rfl) (by decide)).1
    (.Complete (.Number 5 (some [(.SimpleString [107] none, .Number 2 none)])))
    (by rfl))
  have h2 := ((C5_attribute_transparency.1
    [49, 13, 10, 43, 97, 13, 10, 58, 49, 13, 10] [95, 13, 10]
    [(.SimpleString [97] none, .Number 1 none)]
    (.Complete .Null)
    95 (by rfl) (by rfl) (by rfl) (by decide)).2 (by rfl))
  exact ⟨⟨by simpa using h1.1, by simpa using h1.2 _ rfl⟩,
    by simpa using h2.1, by simpa using h2.2⟩

end RedisProtocol
